import Mathlib

/-!
Shallow embedding of the lilith-gmail transform-pipeline core.

Conventions used throughout this development:
* Python floats are modelled as exact rationals (`ℚ`); the code under test
  performs plain per-component arithmetic, which is what we embed.
* Python strings are modelled as Lean `String` / `List Char`; whitespace,
  case mapping and the regex character class `\w` are modelled on the ASCII
  fragment (every string the program actually matches against is ASCII).
* Remote HTTP services (embedder, LLM, NER, language detector) are modelled
  as oracle parameters: a pure function from the request to the response, or
  an `Except` value for a call that can fail.
* Loops whose bound is data-dependent are written either with a fuel
  argument that provably dominates the iteration count (so that concrete
  inputs evaluate by kernel reduction) or by well-founded recursion.
-/

/-- `EMBEDDING_DIM` from `core/models.py` (the build-time vector dimension D). -/
def EMBEDDING_DIM : Nat := 768

namespace Py

/-- ASCII fragment of Python's `str.strip()` whitespace set. -/
def isSpace (c : Char) : Bool :=
  c == ' ' || c == '\t' || c == '\n' || c == '\r' || c == '\x0b' || c == '\x0c'

/-- Python `str.strip()` on a character list. -/
def strip (l : List Char) : List Char :=
  ((l.dropWhile isSpace).reverse.dropWhile isSpace).reverse

/-- Python `str.strip()` on a `String`. -/
def stripS (s : String) : String :=
  String.mk (strip s.data)

/-- Python `str.split()` with no argument: split on whitespace runs, dropping
empty pieces. -/
def splitWs (l : List Char) : List (List Char) :=
  (List.splitOnP isSpace l).filter (· ≠ [])

/-- Substring test (`pat in s` on already-normalised text). -/
def containsSub (pat : List Char) : List Char → Bool
  | [] => pat.isEmpty
  | c :: rest => pat.isPrefixOf (c :: rest) || containsSub pat rest

/-- Index of the first occurrence of `pat` in `s`, if any. -/
def findSub (pat : List Char) : List Char → Option Nat
  | [] => if pat.isEmpty then some 0 else none
  | c :: rest =>
    if pat.isPrefixOf (c :: rest) then some 0
    else (findSub pat rest).map (· + 1)

/-- Case-insensitive prefix test; `pat` is given in lower case. -/
def ciPrefixOf : List Char → List Char → Bool
  | [], _ => true
  | _ :: _, [] => false
  | p :: ps, c :: cs => p == c.toLower && ciPrefixOf ps cs

/-- Index of the first case-insensitive occurrence of (lower-case) `pat`. -/
def findCI (pat : List Char) : List Char → Option Nat
  | [] => if pat.isEmpty then some 0 else none
  | c :: rest =>
    if ciPrefixOf pat (c :: rest) then some 0
    else (findCI pat rest).map (· + 1)

/-- ASCII fragment of the regex class `\w` (the inputs matched are ASCII). -/
def isWordChar (c : Char) : Bool := c.isAlphanum || c == '_'

/-- Word-boundary search: `re.search(r"\bPAT\b", s)` for a word `pat`,
scanning left to right; `prev` is the character before the current position. -/
def wordSearchAux (pat : List Char) (prev : Option Char) : List Char → Bool
  | [] => false
  | c :: rest =>
    (pat.isPrefixOf (c :: rest)
      && (match prev with | none => true | some p => !isWordChar p)
      && (match (c :: rest).drop pat.length with
          | [] => true
          | d :: _ => !isWordChar d))
    || wordSearchAux pat (some c) rest

/-- `re.search(r"\bPAT\b", s) is not None`. -/
def wordSearch (pat s : List Char) : Bool :=
  wordSearchAux pat none s

end Py

namespace Chunking

/-- `CHUNK_TARGET_TOKENS` from `src/transform/chunking.py`. -/
def CHUNK_TARGET_TOKENS : Nat := 7500

/-- The `Chunk` dataclass of `src/transform/chunking.py`. -/
structure Chunk where
  text : String
  position : Nat
  weight : ℚ
deriving DecidableEq, Inhabited

/-- Normalise `\r\n` / `\r` to `\n` (`re.sub(r"\r\n?", "\n", text)`). -/
def normNewlines : List Char → List Char
  | [] => []
  | '\r' :: '\n' :: rest => '\n' :: normNewlines rest
  | '\r' :: rest => '\n' :: normNewlines rest
  | c :: rest => c :: normNewlines rest

/-- One step of `re.split(r"\n\s*\n", text)`: if a separator matches at the
head of `l` (a newline, then greedy whitespace backtracked to its last
newline), return the remainder after the separator. -/
def blankSepAt (l : List Char) : Option (List Char) :=
  match l with
  | '\n' :: rest =>
    let run := rest.takeWhile Py.isSpace
    match Py.findSub ['\n'] run.reverse with
    | some k => some (rest.drop (run.length - k))
    | none => none
  | _ => none

/-- `re.split(r"\n\s*\n", text)`: fuel-driven scanner (fuel `l.length + 1`
always suffices, every step consumes at least one character). -/
def splitBlankAux : Nat → List Char → List Char → List (List Char)
  | 0, acc, l => [acc.reverse ++ l]
  | _, acc, [] => [acc.reverse]
  | fuel + 1, acc, c :: rest =>
    match blankSepAt (c :: rest) with
    | some rem => acc.reverse :: splitBlankAux fuel [] rem
    | none => splitBlankAux fuel (c :: acc) rest

/-- `re.split(r"\n\s*\n", text)`. -/
def splitBlankLines (l : List Char) : List (List Char) :=
  splitBlankAux (l.length + 1) [] l

/-- One step of `re.split(r"(?<=[.!?])\s+", text)`: a separator matches here
when the previous character is `.`/`!`/`?` and a whitespace run starts here;
returns the remainder after the (greedy) run. -/
def sentSepAt (prev : Option Char) (l : List Char) : Option (List Char) :=
  match prev, l with
  | some p, c :: rest =>
    if (p == '.' || p == '!' || p == '?') && Py.isSpace c then
      some (rest.dropWhile Py.isSpace)
    else none
  | _, _ => none

/-- Fuel-driven scanner for the sentence split. -/
def splitSentAux : Nat → Option Char → List Char → List Char → List (List Char)
  | 0, _, acc, l => [acc.reverse ++ l]
  | _, _, acc, [] => [acc.reverse]
  | fuel + 1, prev, acc, c :: rest =>
    match sentSepAt prev (c :: rest) with
    | some rem => acc.reverse :: splitSentAux fuel none [] rem
    | none => splitSentAux fuel (some c) (c :: acc) rest

/-- `re.split(r"(?<=[.!?])\s+", text)`. -/
def splitSentences (l : List Char) : List (List Char) :=
  splitSentAux (l.length + 1) none [] l

/-- `_split_into_paragraphs` from `src/transform/chunking.py`. -/
def split_into_paragraphs (text : String) : List String :=
  if Py.strip text.data = [] then []
  else
    ((splitBlankLines (normNewlines text.data)).map Py.strip).filterMap
      (fun b => if b = [] then none else some (String.mk b))

/-- Sentence fallback used by `chunk_body`: split on sentence boundaries,
strip, drop empties, and fall back to the whole text. -/
def sentenceUnits (text : String) : List String :=
  ((splitSentences text.data).map Py.strip).filterMap
    (fun b => if b = [] then none else some (String.mk b))

/-- The greedy-packing state of `chunk_body`'s loops.  A chunk is kept as its
list of packed fragments together with its position and weight; the source
emits `Chunk(text="\n\n".join(current), position, weight)`. -/
structure PackSt where
  chunks : List (List String × Nat × ℚ)
  current : List String
  currentTokens : Nat
  position : Nat
deriving DecidableEq

/-- Flush the accumulator as a chunk (the `chunks.append(...)` blocks of
`chunk_body`): first chunk weight 2.0, all others 1.0. -/
def emitChunk (st : PackSt) : PackSt :=
  { chunks := st.chunks ++
      [(st.current, st.position, if st.position = 0 then (2 : ℚ) else 1)]
    current := []
    currentTokens := 0
    position := st.position + 1 }

/-- One unit step of `chunk_body`'s greedy packing (shared by the paragraph
branch and the sentence branch, which are textually identical in the source):
flush when the unit would overflow the target and the accumulator is
non-empty, then append the unit. -/
def stepUnit (target : Nat) (st : PackSt) (u : String) (utok : Nat) : PackSt :=
  let st' :=
    if st.currentTokens + utok > target ∧ st.current ≠ [] then emitChunk st
    else st
  { st' with current := st'.current ++ [u],
             currentTokens := st'.currentTokens + utok }

/-- The paragraph loop of `chunk_body`: a paragraph over the target is
replaced by its (stripped, non-empty) sentences, each packed by the same
step; otherwise the paragraph itself is packed. -/
def packParagraphs (tok : String → Nat) (target : Nat)
    (paragraphs : List String) : PackSt :=
  paragraphs.foldl
    (fun st para =>
      let paraTokens := tok para
      if paraTokens > target then
        (sentenceUnits para).foldl (fun st2 s => stepUnit target st2 s (tok s)) st
      else stepUnit target st para paraTokens)
    ⟨[], [], 0, 0⟩

/-- `"\n\n".join(current)`. -/
def joinChunk (frags : List String) : String :=
  String.intercalate "\n\n" frags

/-- `chunk_body` from `src/transform/chunking.py`, with the chunks kept at
the fragment level (source `Chunk`s are recovered by `toChunks`).
`tok` is the embedding service's tokeniser (`embedder.token_count`). -/
def chunk_body_frags (tok : String → Nat) (maxTokens target : Nat)
    (body : String) : List (List String × Nat × ℚ) :=
  if Py.strip body.data = [] then []
  else if tok body ≤ maxTokens then []
  else
    let paragraphs :=
      match split_into_paragraphs body with
      | [] =>
        match sentenceUnits body with
        | [] => [body]
        | ps => ps
      | ps => ps
    let st := packParagraphs tok target paragraphs
    if st.current ≠ [] then (emitChunk st).chunks else st.chunks

/-- Rebuild the source-level `Chunk` records from the fragment-level chunks. -/
def toChunks (cs : List (List String × Nat × ℚ)) : List Chunk :=
  cs.map (fun c => ⟨joinChunk c.1, c.2.1, c.2.2⟩)

/-- `chunk_body` from `src/transform/chunking.py`. -/
def chunk_body (tok : String → Nat) (maxTokens target : Nat)
    (body : String) : List Chunk :=
  toChunks (chunk_body_frags tok maxTokens target body)

/-- The inner loop `for i in range(dim): out[i] += emb[i] * w` of
`weighted_mean_embedding`, expressed as a map over the index range (the
accumulator always has length `dim`). -/
def addScaled (dim : Nat) (out e : List ℚ) (w : ℚ) : List ℚ :=
  (List.range dim).map (fun i => out.getD i 0 + e.getD i 0 * w)

/-- `weighted_mean_embedding` from `src/transform/chunking.py`. -/
def weighted_mean_embedding (embeddings : List (List ℚ)) (weights : List ℚ) :
    List ℚ :=
  if embeddings = [] ∨ weights = [] ∨ embeddings.length ≠ weights.length then []
  else
    let dim := (embeddings.headD []).length
    let total := weights.sum
    if total = 0 then List.replicate dim 0
    else
      let out := (embeddings.zip weights).foldl
        (fun o ew => addScaled dim o ew.1 ew.2) (List.replicate dim 0)
      out.map (fun x => x / total)

end Chunking

/-- Modelled from the spec: `core/privacy.py` (class `PrivacyTier`) is imported
by the pipeline but is not under `src/`; §3 of the spec fixes the integer
codes `1 = SENSITIVE, 2 = PERSONAL, 3 = PUBLIC`. -/
def PrivacyTier.SENSITIVE : Nat := 1

/-- Modelled from the spec (see `PrivacyTier.SENSITIVE`). -/
def PrivacyTier.PERSONAL : Nat := 2

/-- Modelled from the spec (see `PrivacyTier.SENSITIVE`). -/
def PrivacyTier.PUBLIC : Nat := 3

namespace Privacy

/-- `VALID_TIERS` from `src/transform/privacy.py` (a frozenset; modelled as a
list, only membership is used). -/
def VALID_TIERS : List (List Char) :=
  ["SENSITIVE".data, "PERSONAL".data, "PUBLIC".data]

/-- `TIER_ORDER` from `src/transform/privacy.py`. -/
def TIER_ORDER : List (List Char) :=
  ["SENSITIVE".data, "PERSONAL".data, "PUBLIC".data]

/-- `TIER_VARIATIONS` from `src/transform/privacy.py`, in its insertion
(= iteration) order. -/
def TIER_VARIATIONS : List (List Char × List Char) :=
  [("SENS".data, "SENSITIVE".data),
   ("PRIV".data, "PERSONAL".data),
   ("PERS".data, "PERSONAL".data),
   ("PUBL".data, "PUBLIC".data),
   ("PUB".data, "PUBLIC".data)]

/-- Length consumed by `[^>]*>` at the head of `l` (through the first `>`). -/
def gtScan : List Char → Option Nat
  | [] => none
  | c :: rest => if c = '>' then some 1 else (gtScan rest).map (· + 1)

/-- Length consumed by `\s*>` at the head of `l` (a whitespace run, then `>`). -/
def wsGt : List Char → Option Nat
  | [] => none
  | c :: rest =>
    if c = '>' then some 1
    else if Py.isSpace c then (wsGt rest).map (· + 1)
    else none

/-- The opener `<(?:think|thinking)\b[^>]*>` of `_THINK_PATTERN` matched at
the head of `l` (case-insensitive): alternation prefers `think`, whose `\b`
requires a non-word character after it. -/
def openerLen (l : List Char) : Option Nat :=
  let boundaryAfter : Nat → Bool := fun k =>
    match l.drop k with | [] => true | d :: _ => !Py.isWordChar d
  let tagLen : Option Nat :=
    if Py.ciPrefixOf "<think".data l && boundaryAfter 6 then some 6
    else if Py.ciPrefixOf "<thinking".data l && boundaryAfter 9 then some 9
    else none
  match tagLen with
  | some t => (gtScan (l.drop t)).map (t + ·)
  | none => none

/-- The closer `</(?:think|thinking)\s*>` matched at the head of `l`
(case-insensitive), returning the consumed length. -/
def closerLenAt (l : List Char) : Option Nat :=
  if Py.ciPrefixOf "</think".data l then
    match wsGt (l.drop 7) with
    | some k => some (7 + k)
    | none =>
      if Py.ciPrefixOf "</thinking".data l then
        match wsGt (l.drop 10) with
        | some k => some (10 + k)
        | none => none
      else none
  else none

/-- First position (and length) of a closer `</(?:think|thinking)\s*>` in `l`. -/
def findCloser : List Char → Option (Nat × Nat)
  | [] => none
  | c :: rest =>
    match closerLenAt (c :: rest) with
    | some k => some (0, k)
    | none => (findCloser rest).map (fun p => (p.1 + 1, p.2))

/-- The length of the `_THINK_PATTERN` match starting exactly at the head of
`s`, if any.  Alternatives in the pattern's order: a literal `<think>` with
the nearest literal `</think>` closer, a literal `<think>` to end-of-string,
a general opener with the nearest general closer, a general opener to
end-of-string. -/
def matchThinkAt (s : List Char) : Option Nat :=
  if Py.ciPrefixOf "<think>".data s then
    match Py.findCI "</think>".data (s.drop 7) with
    | some j => some (7 + j + 8)
    | none => some s.length
  else
    match openerLen s with
    | some ol =>
      match findCloser (s.drop ol) with
      | some jk => some (ol + jk.1 + jk.2)
      | none => some s.length
    | none => none

/-- `_THINK_PATTERN.sub("", out)`: scan left to right, deleting each match and
resuming after it.  Every match consumes at least one character, so fuel
`s.length` suffices; on exhausted fuel the remainder is returned unchanged. -/
def subThinkAux : Nat → List Char → List Char
  | 0, s => s
  | _, [] => []
  | fuel + 1, c :: rest =>
    match matchThinkAt (c :: rest) with
    | some n => subThinkAux fuel ((c :: rest).drop n)
    | none => c :: subThinkAux fuel rest

/-- `_THINK_PATTERN.sub("", s)`. -/
def subThink (s : List Char) : List Char :=
  subThinkAux s.length s

/-- The fixpoint loop of `_strip_think_block`: repeat
`out = _THINK_PATTERN.sub("", out).strip()` until unchanged.  Each productive
iteration deletes at least one character, so fuel `length + 1` suffices. -/
def stripThinkLoop : Nat → List Char → List Char
  | 0, out => out
  | fuel + 1, out =>
    let next := Py.strip (subThink out)
    if next = out then out else stripThinkLoop fuel next

/-- `_strip_think_block` from `src/transform/privacy.py`. -/
def strip_think_block (text : List Char) : List Char :=
  if Py.strip text = [] then text
  else stripThinkLoop (text.length + 1) text

/-- `_extract_tier_from_text` from `src/transform/privacy.py`. -/
def extract_tier_from_text (text : List Char) : Option (List Char) :=
  if Py.strip text = [] then none
  else
    let upper := (Py.strip text).map Char.toUpper
    match TIER_ORDER.find? (fun t => Py.wordSearch t upper) with
    | some t => some t
    | none => TIER_ORDER.find? (fun t => Py.containsSub t upper)

/-- The error message raised when the response is empty after think-stripping. -/
def emptyMsg : String :=
  "Classification response was empty after stripping think blocks"

/-- The 100-character preview of the raw response used in the parse error. -/
def previewOf (raw : String) : String :=
  if raw.length > 100 then String.mk (raw.data.take 100) ++ "…" else raw

/-- The parse-failure message (the Python `repr` quoting of the preview is
elided; the preview is embedded verbatim). -/
def parseErrMsg (raw : String) : String :=
  "Could not parse tier from classification response (expected SENSITIVE, PERSONAL, or PUBLIC). Preview: "
    ++ previewOf raw

/-- Steps (1)-(5) of `_parse_tier` applied to the non-empty cleaned text:
exact match, first-token match, variant substring, word-boundary search in
tier order, substring search in tier order. -/
def tierStages (cleaned : List Char) : Option (List Char) :=
  if VALID_TIERS.contains cleaned then some cleaned
  else
    let token := (Py.splitWs cleaned).headD []
    if VALID_TIERS.contains token then some token
    else
      match TIER_VARIATIONS.find? (fun vt => Py.containsSub vt.1 cleaned) with
      | some vt => some vt.2
      | none =>
        match TIER_ORDER.find? (fun t => Py.wordSearch t cleaned) with
        | some t => some t
        | none => TIER_ORDER.find? (fun t => Py.containsSub t cleaned)

/-- `_parse_tier` from `src/transform/privacy.py`. -/
def parse_tier (rawResponse : String) : Except String String :=
  let raw := rawResponse.data
  let cleaned := (Py.strip (strip_think_block raw)).map Char.toUpper
  if cleaned = [] then
    match extract_tier_from_text raw with
    | some t => .ok (String.mk t)
    | none => .error emptyMsg
  else
    match tierStages cleaned with
    | some t => .ok (String.mk t)
    | none => .error (parseErrMsg rawResponse)

/-- The claim's parsing algorithm, written from the spec's words: strip think
blocks, uppercase, apply steps (1)-(5), and raise with the 100-character
preview when all steps fail.  (The spec-side definition for the refinement
comparison with `parse_tier`; it has no fallback for an empty remainder.) -/
def parse_tier_claim (rawResponse : String) : Except String String :=
  let raw := rawResponse.data
  let cleaned := (Py.strip (strip_think_block raw)).map Char.toUpper
  match tierStages cleaned with
  | some t => .ok (String.mk t)
  | none => .error (parseErrMsg rawResponse)

/-- Python `s[-e:]` (note `s[-0:]` is the whole string). -/
def pyTail (s : String) (e : Nat) : String :=
  if e = 0 then s else String.mk (s.data.drop (s.length - e))

/-- Python `s[:k]`. -/
def pyHead (s : String) (k : Nat) : String :=
  String.mk (s.data.take k)

/-- The `while True` loop of `_fit_body_to_budget` from
`src/transform/privacy.py`.  `tokPrompt` is the composite oracle
`token_count(make_prompt(preview))` (remote tokeniser applied to the fully
rendered prompt for a candidate preview).  The loop is written with a fuel
argument and returns `none` on exhausted fuel; the C7 theorem proves that
fuel `startLen + endLen + 1` always suffices, which is the termination of
the source loop. -/
def fit_loop (tokPrompt : String → Nat) (maxPromptTokens : Nat)
    (bodyText : String) : Nat → Nat → Nat → Option String
  | _, _, 0 => none
  | startLen, endLen, fuel + 1 =>
    let n := bodyText.length
    let bodyPreview :=
      if startLen + endLen ≥ n then bodyText
      else pyHead bodyText startLen ++ "\n...\n" ++ pyTail bodyText endLen
    if tokPrompt bodyPreview ≤ maxPromptTokens then some bodyPreview
    else
      let startLen' := max 100 (startLen - 500)
      let endLen' := max 100 (endLen - 200)
      if startLen' ≤ 100 ∧ endLen' ≤ 100 then
        some (pyHead bodyText startLen' ++ "\n...\n" ++ pyTail bodyText endLen')
      else fit_loop tokPrompt maxPromptTokens bodyText startLen' endLen' fuel

/-- `_fit_body_to_budget` from `src/transform/privacy.py` (`none` would mean
the loop failed to return, which the C7 theorem rules out). -/
def fit_body_to_budget (tokPrompt : String → Nat) (maxPromptTokens : Nat)
    (bodyText : String) : Option String :=
  if tokPrompt bodyText ≤ maxPromptTokens then some bodyText
  else
    let n := bodyText.length
    let startLen0 := n / 2 + n / 4
    let endLen0 := n / 4
    let se :=
      if startLen0 + endLen0 > n then (n / 2, n - n / 2) else (startLen0, endLen0)
    fit_loop tokPrompt maxPromptTokens bodyText se.1 se.2 (se.1 + se.2 + 1)

end Privacy

namespace Embeddings

/-- The TEI `/embed` endpoint's response to one POST, as seen through
`httpx`: a JSON list of vectors, or an HTTP error status (413 is the one the
client handles specially). -/
inductive HttpResp where
  | ok : List (List ℚ) → HttpResp
  | err413 : HttpResp
  | errOther : HttpResp

/-- The failure modes of the embedder client: the two `httpx.HTTPStatusError`
classes it distinguishes, the `RuntimeError` for an unset URL, and locally
raised `ValueError`s. -/
inductive EmbedErr where
  | http413 : EmbedErr
  | httpOther : EmbedErr
  | runtimeErr : EmbedErr
  | valueError : String → EmbedErr
deriving DecidableEq

/-- `Embedder._sync_post` from `src/core/embeddings.py` on a list input
(`/embed` path).  The second component is the list of POST requests issued
(empty for the early returns).  `urlSet` models a truthy
`self.endpoint_url`; `oracle` is the remote service. -/
def sync_post_list (urlSet : Bool) (oracle : List String → HttpResp)
    (texts : List String) : Except EmbedErr (List (List ℚ)) × List (List String) :=
  if texts = [] then (.ok [], [])
  else if ¬ urlSet then (.error .runtimeErr, [])
  else
    match oracle texts with
    | .ok d => (.ok d, [texts])
    | .err413 => (.error .http413, [texts])
    | .errOther => (.error .httpOther, [texts])

/-- `Embedder._sync_post` from `src/core/embeddings.py` on a string input
(`/embed` path): an empty string returns `[0.0] * EMBEDDING_DIM` without any
request; otherwise the singleton request is posted and the first vector of
the response returned (`data[0] if data and isinstance(data[0], list) else
data`; for an empty response both branches give `[]`). -/
def sync_post_str (urlSet : Bool) (oracle : List String → HttpResp)
    (text : String) : Except EmbedErr (List ℚ) × List (List String) :=
  if text = "" then (.ok (List.replicate EMBEDDING_DIM 0), [])
  else if ¬ urlSet then (.error .runtimeErr, [])
  else
    match oracle [text] with
    | .ok d => (.ok (d.headD []), [[text]])
    | .err413 => (.error .http413, [[text]])
    | .errOther => (.error .httpOther, [[text]])

/-- `Embedder._embed_one` from `src/core/embeddings.py`. -/
def embed_one (urlSet : Bool) (oracle : List String → HttpResp)
    (text : String) : Except EmbedErr (List ℚ) :=
  match (sync_post_list urlSet oracle [text]).1 with
  | .error e => .error e
  | .ok result =>
    if result.length ≠ 1 then
      .error (.valueError "TEI /embed returned unexpected shape for single text")
    else
      let v := result.headD []
      if v.length ≠ EMBEDDING_DIM then
        .error (.valueError "TEI /embed returned invalid vector")
      else .ok v

/-- The 15-iteration refinement loop of `_truncate_to_max_tokens`.  Python's
`int(max_len * 0.9)` is modelled as `max_len * 9 / 10` (equal for every
realistic length; the float product only differs from the exact product by
a relative 2.5e-17). -/
def truncate_iter (tok : String → Nat) (maxTokens : Nat) (text : String) :
    Nat → Nat → String
  | maxLen, 0 => if maxLen > 0 then String.mk (text.data.take maxLen) else ""
  | maxLen, fuel + 1 =>
    if maxLen = 0 then ""
    else
      let truncated := String.mk (text.data.take maxLen)
      if tok truncated ≤ maxTokens then truncated
      else truncate_iter tok maxTokens text (maxLen * 9 / 10) fuel

/-- `Embedder._truncate_to_max_tokens` from `src/core/embeddings.py`.
Python's `int(len(text) * max_tokens / n)` is modelled as exact floor
division (equal below 2^53). -/
def truncate_to_max_tokens (tok : String → Nat) (text : String)
    (maxTokens : Nat) : String :=
  if text = "" ∨ maxTokens = 0 then text
  else
    let n := tok text
    if n ≤ maxTokens then text
    else truncate_iter tok maxTokens text (text.length * maxTokens / n) 15

/-- The sub-batch partition `texts[i:i+batch_size]` of `encode_batch`'s
dispatch loop (fuel-driven; fuel `length` suffices whenever
`batchSize > 0`, which the Python `range` step requires anyway). -/
def chunksOfAux (batchSize : Nat) : Nat → List String → List (List String)
  | 0, _ => []
  | _, [] => []
  | fuel + 1, t :: ts =>
    (t :: ts).take batchSize :: chunksOfAux batchSize fuel ((t :: ts).drop batchSize)

/-- The sub-batch partition of `encode_batch`. -/
def chunksOf (batchSize : Nat) (l : List String) : List (List String) :=
  chunksOfAux batchSize l.length l

/-- The element-by-element 413 retry loop of `encode_batch`: embed each text
of the failed sub-batch alone; if a single text still gets 413 and is longer
than 256 characters, retry once with the text halved; a 413 on a short text,
any other HTTP error, and any `ValueError` propagate. -/
def retry_each (urlSet : Bool) (oracle : List String → HttpResp) :
    List String → Except EmbedErr (List (List ℚ))
  | [] => .ok []
  | t :: rest =>
    let r : Except EmbedErr (List ℚ) :=
      match embed_one urlSet oracle t with
      | .ok v => .ok v
      | .error .http413 =>
        if t.length > 256 then
          embed_one urlSet oracle (String.mk (t.data.take (t.length / 2)))
        else .error .http413
      | .error e => .error e
    match r with
    | .ok v => (retry_each urlSet oracle rest).map (v :: ·)
    | .error e => .error e

/-- Processing of one sub-batch in `encode_batch`'s dispatch loop: post the
sub-batch; on 413 fall back to `retry_each` (more than one element) or to a
single halved retry (one long element); on success check the count and that
every vector has dimension `EMBEDDING_DIM`.  (The source validates vectors
one at a time while appending; an invalid vector raises and discards the
partial output, so the batch-level check is equivalent.) -/
def process_sub (urlSet : Bool) (oracle : List String → HttpResp)
    (sub : List String) : Except EmbedErr (List (List ℚ)) :=
  match (sync_post_list urlSet oracle sub).1 with
  | .ok vecs =>
    if vecs.length ≠ sub.length then
      .error (.valueError "TEI /embed batch length mismatch")
    else if vecs.all (fun v => v.length = EMBEDDING_DIM) then .ok vecs
    else .error (.valueError "TEI /embed returned invalid vector")
  | .error .http413 =>
    if sub.length > 1 then retry_each urlSet oracle sub
    else
      match sub with
      | [t] =>
        if t.length > 256 then
          (embed_one urlSet oracle (String.mk (t.data.take (t.length / 2)))).map
            (fun v => [v])
        else .error .http413
      | _ => .error .http413
  | .error e => .error e

/-- The `max_chars_per_input` clipping pass of `encode_batch`. -/
def clip_texts (maxCharsPerInput : Option Nat) (texts : List String) :
    List String :=
  match maxCharsPerInput with
  | some mc =>
    if mc > 0 then texts.map (fun t => String.mk (t.data.take mc)) else texts
  | none => texts

/-- The `max_tokens_per_input` token-cap pass of `encode_batch`. -/
def cap_texts (tok : String → Nat) (maxTokensPerInput : Option Nat)
    (texts : List String) : List String :=
  match maxTokensPerInput with
  | some mt =>
    if mt > 0 then
      let cap := min mt 8192
      let minCharsToCheck := cap * 3
      texts.map (fun t =>
        if t.length ≤ minCharsToCheck then t
        else if tok t > cap then truncate_to_max_tokens tok t cap
        else t)
    else texts
  | none => texts

/-- `Embedder.encode_batch` from `src/core/embeddings.py`.  `tok` is the
remote tokeniser (`self.token_count`); `oracle` the `/embed` endpoint. -/
def encode_batch (urlSet : Bool) (oracle : List String → HttpResp)
    (tok : String → Nat) (texts : List String) (batchSize : Nat)
    (maxCharsPerInput maxTokensPerInput : Option Nat) :
    Except EmbedErr (List (List ℚ)) :=
  if texts = [] then .ok []
  else
    let texts2 := cap_texts tok maxTokensPerInput (clip_texts maxCharsPerInput texts)
    let n := texts2.length
    let processed := (chunksOf batchSize texts2).foldl
      (fun (acc : Except EmbedErr (List (List ℚ))) sub =>
        match acc with
        | .error e => .error e
        | .ok out =>
          match process_sub urlSet oracle sub with
          | .ok vecs => .ok (out ++ vecs)
          | .error e => .error e)
      (Except.ok [])
    match processed with
    | .error e => .error e
    | .ok out =>
      if out.length ≠ n then
        .error (.valueError "Embed batch total length mismatch")
      else .ok out

end Embeddings

namespace CapLoader

/-- `_DEFAULT_CLASSIFY_MAX_CHARS` from `src/core/capabilities_loader.py`. -/
def DEFAULT_CLASSIFY_MAX_CHARS : Nat := 6000

/-- `get_classify_max_chars` from `src/core/capabilities_loader.py`, as a
function of the two capability fields it reads (`classify_body_max_chars`
and `vllm.max_model_len`; JSON numbers modelled as naturals, which is what
`int(v)` yields on the discovered limits). -/
def get_classify_max_chars (classifyBodyMaxChars maxModelLen : Option Nat) :
    Except String Nat :=
  match classifyBodyMaxChars with
  | some v => .ok v
  | none =>
    match maxModelLen with
    | some m => .ok (min DEFAULT_CLASSIFY_MAX_CHARS (m * 4 / 2))
    | none =>
      .error "capabilities.json missing vllm.max_model_len/classify_body_max_chars."

end CapLoader

namespace FastText

/-- `DETECT_CONFIDENCE_THRESHOLD` from `src/transform/fasttext_client.py`. -/
def DETECT_CONFIDENCE_THRESHOLD : ℚ := 1 / 2

/-- One entry of the detector's `predictions` list (`confidence = none`
models an absent or non-numeric field). -/
structure Prediction where
  language : String
  confidence : Option ℚ
deriving DecidableEq

/-- `detect_language` from `src/transform/fasttext_client.py`.  `urlSet`
models a truthy `FASTTEXT_LANGDETECT_URL`; `resp` is the outcome of the POST
to `/detect` (carrying the `predictions` field of its JSON body); an HTTP failure
(`raise_for_status` or a transport error) is the `.error` case and
propagates. -/
def detect_language (urlSet : Bool) (text : String)
    (resp : Except String (List Prediction)) : Except String String :=
  if ¬ urlSet then
    .error "FASTTEXT_LANGDETECT_URL is not set."
  else if Py.stripS text = "" then .ok "en"
  else
    match resp with
    | .error e => .error e
    | .ok predictions =>
      if predictions = [] then .ok "en"
      else
        let first := predictions.headD ⟨"", none⟩
        let lang := Py.stripS first.language
        let lowConfidence : Bool :=
          match first.confidence with
          | some c => decide (c < DETECT_CONFIDENCE_THRESHOLD)
          | none => false
        if lowConfidence then .ok "en"
        else if lang ≠ "" ∧ 2 ≤ lang.length then
          let base := String.mk (((lang.data.takeWhile (· ≠ '_')).map Char.toLower).take 2)
          if base ≠ "" ∧ base.data.all Char.isAlpha then .ok base else .ok "en"
        else .ok "en"

end FastText

namespace Pipeline

/-- `SNIPPET_REDACTED_PLACEHOLDER` from `src/transform/pipeline.py`. -/
def SNIPPET_REDACTED_PLACEHOLDER : String := "Content redacted"

/-- The `_PreparePayload` dataclass of `src/transform/pipeline.py` (the
source comment on `subject_text` reads: "text to embed for subject (empty if
SENSITIVE or no subject)"). -/
structure PreparePayload where
  emailId : Nat
  privacyTier : Nat
  bodyRedacted : Option String
  snippetRedacted : Option String
  textToEmbed : Option String
  subject : String
  bodyType : String
  chunks : List Chunking.Chunk
  subjectText : String
  bodyText : Option String
deriving DecidableEq

/-- The fields of an `Email` row read by `_prepare_one`. -/
structure EmailRow where
  id : Nat
  bodyText : String
  subject : String
  snippet : String
deriving DecidableEq

/-- The collaborators of `_prepare_one`, as oracles: the preprocessor and
redactor (pure collaborators outside the claims under study), the outcome of
the classification call, the outcome of the language-detector call, the
embedder's tokeniser, whether the embedder URL is set, and
`get_embed_max_tokens()`. -/
structure PrepareEnv where
  preprocess : String → String
  redact : String → String → String
  classify : Except String Nat
  detect : Except String String
  tok : String → Nat
  embedderSet : Bool
  maxTokens : Nat

/-- `TransformPipeline._prepare_one` from `src/transform/pipeline.py`
(lines 472-559).  The `detect_language` call is not wrapped in any handler:
its failure propagates and fails the whole preparation.  The
`subject_text` assignment mirrors line 532 of the source, which sets it from
the subject alone, with no tier check. -/
def prepare_one (env : PrepareEnv) (email : EmailRow) :
    Except String PreparePayload := do
  let subject := email.subject
  let bodyCleaned := env.preprocess email.bodyText
  let privacyTier ← env.classify
  let detectedLang ← env.detect
  let bodyRedacted := env.redact bodyCleaned detectedLang
  let snippetRedacted :=
    if privacyTier = PrivacyTier.SENSITIVE ∨ privacyTier = PrivacyTier.PERSONAL then
      SNIPPET_REDACTED_PLACEHOLDER
    else
      let rawSnippet := Py.stripS email.snippet
      if rawSnippet ≠ "" then env.redact rawSnippet detectedLang else ""
  let textToEmbed : Option String :=
    if Py.stripS bodyCleaned = "" then none else some (Py.stripS bodyCleaned)
  let subjectText := if Py.stripS subject ≠ "" then Py.stripS subject else ""
  let bt : String × Option String × List Chunking.Chunk :=
    match textToEmbed with
    | some t =>
      if env.embedderSet then
        if env.tok t ≤ env.maxTokens then ("full", some t, [])
        else ("chunked", none,
          Chunking.chunk_body env.tok env.maxTokens Chunking.CHUNK_TARGET_TOKENS t)
      else ("none", none, [])
    | none => ("none", none, [])
  return { emailId := email.id
           privacyTier := privacyTier
           bodyRedacted := some bodyRedacted
           snippetRedacted := if snippetRedacted ≠ "" then some snippetRedacted else none
           textToEmbed := textToEmbed
           subject := subject
           bodyType := bt.1
           chunks := bt.2.2
           subjectText := subjectText
           bodyText := bt.2.1 }

/-- The role tag of one flattened embed-request entry. -/
inductive Role where
  | subject : Role
  | body : Role
  | chunk : Role
deriving DecidableEq

/-- One entry of the flattened embed request
(`(idx, email_id, role, text, extra)` in the source). -/
structure EmbedItem where
  payloadIdx : Nat
  emailId : Nat
  role : Role
  text : String
  extra : Option (Nat × ℚ)
deriving DecidableEq

/-- The flattened embed request of `_transform_batch` (lines 322-331): per
payload, a `subject` entry when `subject_text` is non-empty, a `body` entry
when `body_type == "full"` and `body_text` is truthy, and one entry per
chunk when `body_type == "chunked"` and chunks exist. -/
def buildItems (payloads : List PreparePayload) : List EmbedItem :=
  payloads.enum.flatMap (fun ip =>
    let idx := ip.1
    let p := ip.2
    (if p.subjectText ≠ "" then
      [⟨idx, p.emailId, Role.subject, p.subjectText, none⟩] else []) ++
    (if p.bodyType = "full" ∧ p.bodyText.getD "" ≠ "" then
      [⟨idx, p.emailId, Role.body, p.bodyText.getD "", none⟩] else []) ++
    (if p.bodyType = "chunked" ∧ p.chunks ≠ [] then
      p.chunks.map (fun c => ⟨idx, p.emailId, Role.chunk, c.text, some (c.position, c.weight)⟩)
     else []))

/-- The reassembly of returned vectors by role for payload `idx`
(lines 385-393): subject and body vectors are assigned, chunk vectors are
appended in arrival order with their position and weight. -/
def embsFor (items : List EmbedItem) (vectors : List (List ℚ)) (idx : Nat) :
    Option (List ℚ) × Option (List ℚ) × List (List ℚ × Nat × ℚ) :=
  (items.zip vectors).foldl
    (fun acc iv =>
      if iv.1.payloadIdx = idx then
        match iv.1.role with
        | Role.subject => (some iv.2, acc.2.1, acc.2.2)
        | Role.body => (acc.1, some iv.2, acc.2.2)
        | Role.chunk =>
          match iv.1.extra with
          | some pw => (acc.1, acc.2.1, acc.2.2 ++ [(iv.2, pw.1, pw.2)])
          | none => acc
      else acc)
    (none, none, [])

/-- `_validate_embedding` from `src/transform/pipeline.py` as a predicate
(`true` = no exception).  The call sites normalise a missing vector to `[]`. -/
def validate_embedding (vec : List ℚ) (expectContent : Bool) : Bool :=
  if vec = [] then !expectContent
  else if vec.length ≠ EMBEDDING_DIM then false
  else !(expectContent && vec.all (fun x => x == 0))

/-- `_validate_transform_result` from `src/transform/pipeline.py` as a
predicate (`true` = no exception). -/
def validate_transform_result (privacyTier : Nat)
    (subjectEmb bodyEmb pooledEmb : List ℚ)
    (chunkRows : List (String × Nat × ℚ × List ℚ))
    (textToEmbed : Option String) (subject : String) : Bool :=
  if privacyTier ≠ PrivacyTier.SENSITIVE ∧ privacyTier ≠ PrivacyTier.PERSONAL ∧
      privacyTier ≠ PrivacyTier.PUBLIC then false
  else
    let expectSubject : Bool := Py.stripS subject ≠ "" ∧ privacyTier ≠ PrivacyTier.SENSITIVE
    if ¬ validate_embedding subjectEmb expectSubject then false
    else
      let expectBody : Bool :=
        match textToEmbed with
        | some t => t ≠ "" ∧ Py.stripS t ≠ ""
        | none => false
      if bodyEmb ≠ [] ∧ ¬ validate_embedding bodyEmb expectBody then false
      else if pooledEmb ≠ [] ∧ ¬ validate_embedding pooledEmb expectBody then false
      else if expectBody ∧ bodyEmb = [] ∧ pooledEmb = [] then false
      else chunkRows.all (fun r => validate_embedding r.2.2.2 true)

/-- Stable insert used to model Python's stable `sorted(key=lambda x: x[1])`:
the new element goes after every element with a key less than or equal to
its own. -/
def insertByPos (x : List ℚ × Nat × ℚ) :
    List (List ℚ × Nat × ℚ) → List (List ℚ × Nat × ℚ)
  | [] => [x]
  | y :: ys => if y.2.1 ≤ x.2.1 then y :: insertByPos x ys else x :: y :: ys

/-- Python's stable `sorted(chunks, key=lambda x: x[1])` (any stable sort by
the same key produces the identical list). -/
def sortByPos (l : List (List ℚ × Nat × ℚ)) : List (List ℚ × Nat × ℚ) :=
  l.foldl (fun acc x => insertByPos x acc) []

/-- The `chunk_rows` construction of `_transform_batch` (lines 403-406):
sort the reassembled chunk vectors by position and pair the i-th with
`p.chunks[i].text`. -/
def chunkRowsOf (chunks : List Chunking.Chunk)
    (chunksEmb : List (List ℚ × Nat × ℚ)) : List (String × Nat × ℚ × List ℚ) :=
  (sortByPos chunksEmb).enum.map
    (fun ivpw => ((chunks.getD ivpw.1 default).text, ivpw.2.2.1, ivpw.2.2.2, ivpw.2.1))

/-- The derived columns written for one email by `_transform_batch`
(lines 430-448). -/
structure StoredEmail where
  privacyTier : Nat
  bodyRedacted : Option String
  snippetRedacted : Option String
  subjectEmbedding : Option (List ℚ)
  bodyEmbedding : Option (List ℚ)
  bodyPooledEmbedding : Option (List ℚ)
  chunkRows : List (String × Nat × ℚ × List ℚ)
deriving DecidableEq

/-- Assembly, validation and write of one payload in `_transform_batch`
(lines 399-448): `none` when validation fails (the email is skipped and
nothing is written). -/
def assembleOne (p : PreparePayload) (subjectEmb bodyEmb : List ℚ)
    (chunksEmb : List (List ℚ × Nat × ℚ)) : Option StoredEmail :=
  let chunkRows := chunkRowsOf p.chunks chunksEmb
  let pooledEmb :=
    if chunkRows ≠ [] then
      Chunking.weighted_mean_embedding
        (chunkRows.map (fun r => r.2.2.2)) (chunkRows.map (fun r => r.2.2.1))
    else []
  if validate_transform_result p.privacyTier subjectEmb bodyEmb pooledEmb
      chunkRows p.textToEmbed p.subject then
    some { privacyTier := p.privacyTier
           bodyRedacted := p.bodyRedacted
           snippetRedacted := p.snippetRedacted
           subjectEmbedding := if subjectEmb ≠ [] then some subjectEmb else none
           bodyEmbedding := if bodyEmb ≠ [] then some bodyEmb else none
           bodyPooledEmbedding := if pooledEmb ≠ [] then some pooledEmb else none
           chunkRows := chunkRows }
  else none

/-- `_transform_batch` specialised to a batch of one prepared payload: build
the flattened request, pair it with the returned vectors (`none` when the
count mismatches, where the source raises), reassemble by role, validate and
write. -/
def transform_one (p : PreparePayload) (vectors : List (List ℚ)) :
    Option StoredEmail :=
  let items := buildItems [p]
  if vectors.length ≠ items.length then none
  else
    let em := embsFor items vectors 0
    assembleOne p (em.1.getD []) (em.2.1.getD []) em.2.2

end Pipeline

/-- A concrete embed service for the C4 scenario (§8 scenario 6 of the
spec): any request with two or more texts is rejected with 413, the
full-length 300-character text is rejected with 413 even alone, and every
other singleton request succeeds with one unit vector. -/
def oracle413 : List String → Embeddings.HttpResp := fun req =>
  if req.length ≥ 2 then Embeddings.HttpResp.err413
  else if req.headD "" = String.mk (List.replicate 300 'b') then
    Embeddings.HttpResp.err413
  else Embeddings.HttpResp.ok [List.replicate EMBEDDING_DIM 1]

/-- Environment for the C1 failing input: classification returns SENSITIVE,
language detection succeeds, the body fits the embedder (token count 1); the
preprocessor and redactor are identities (they do not affect the subject
path under study). -/
def envC1 : Pipeline.PrepareEnv :=
  { preprocess := fun s => s
    redact := fun b _ => b
    classify := .ok PrivacyTier.SENSITIVE
    detect := .ok "en"
    tok := fun _ => 1
    embedderSet := true
    maxTokens := 8192 }

/-- The C1 failing input: a SENSITIVE-classified email with non-blank
subject. -/
def emailC1 : Pipeline.EmailRow :=
  { id := 1, bodyText := "Meet at noon.", subject := "Hello", snippet := "Meet" }

/-- The subject vector returned by the embed oracle in the C1 scenario. -/
def vSubj : List ℚ := List.replicate EMBEDDING_DIM 1

/-- The body vector returned by the embed oracle in the C1 scenario. -/
def vBody : List ℚ := List.replicate EMBEDDING_DIM 3

/-- The payload `_prepare_one` produces for `emailC1` under `envC1`. -/
def payloadC1 : Pipeline.PreparePayload :=
  { emailId := 1, privacyTier := 1, bodyRedacted := some "Meet at noon."
    snippetRedacted := some "Content redacted"
    textToEmbed := some "Meet at noon.", subject := "Hello"
    bodyType := "full", chunks := [], subjectText := "Hello"
    bodyText := some "Meet at noon." }

/-- The derived columns `_transform_batch` writes for `payloadC1`. -/
def stC1 : Pipeline.StoredEmail :=
  { privacyTier := 1, bodyRedacted := some "Meet at noon."
    snippetRedacted := some "Content redacted"
    subjectEmbedding := some vSubj, bodyEmbedding := some vBody
    bodyPooledEmbedding := none, chunkRows := [] }

section Theorems

/-! Helper lemmas (shared), then one theorem per claim with its witness or
counterexample. -/

theorem addScaled_getD (dim : Nat) (out e : List ℚ) (w : ℚ) (j : Nat)
    (hj : j < dim) :
    (Chunking.addScaled dim out e w).getD j 0 = out.getD j 0 + e.getD j 0 * w := by
  unfold Chunking.addScaled
  rw [List.getD_eq_getElem?_getD, List.getElem?_map, List.getElem?_range hj]
  simp

theorem addScaled_length (dim : Nat) (out e : List ℚ) (w : ℚ) :
    (Chunking.addScaled dim out e w).length = dim := by
  simp [Chunking.addScaled]

theorem foldl_addScaled_getD (dim : Nat) (zs : List (List ℚ × ℚ)) (j : Nat)
    (hj : j < dim) :
    ∀ o : List ℚ,
      (zs.foldl (fun o ew => Chunking.addScaled dim o ew.1 ew.2) o).getD j 0 =
        o.getD j 0 + (zs.map (fun ew => ew.1.getD j 0 * ew.2)).sum := by
  induction zs with
  | nil => simp
  | cons hd tl ih =>
    intro o
    rw [List.foldl_cons, ih (Chunking.addScaled dim o hd.1 hd.2),
      addScaled_getD dim o hd.1 hd.2 j hj, List.map_cons, List.sum_cons]
    ring

theorem foldl_addScaled_length (dim : Nat) (zs : List (List ℚ × ℚ)) :
    ∀ o : List ℚ, o.length = dim →
      (zs.foldl (fun o ew => Chunking.addScaled dim o ew.1 ew.2) o).length = dim := by
  induction zs with
  | nil => intro o ho; simpa using ho
  | cons hd tl ih =>
    intro o _
    exact ih _ (addScaled_length dim o hd.1 hd.2)

theorem getD_map_div (l : List ℚ) (t : ℚ) (j : Nat) (hj : j < l.length) :
    (l.map (fun x => x / t)).getD j 0 = l.getD j 0 / t := by
  rw [List.getD_eq_getElem _ _ (by simpa using hj), List.getD_eq_getElem _ _ hj,
    List.getElem_map]

theorem validate_embedding_content (vec : List ℚ) :
    Pipeline.validate_embedding vec true = true → vec.length = EMBEDDING_DIM := by
  unfold Pipeline.validate_embedding
  intro h
  split_ifs at h <;> simp_all

theorem validate_result_chunks (tier : Nat) (se be pe : List ℚ)
    (rows : List (String × Nat × ℚ × List ℚ)) (tte : Option String) (subj : String) :
    Pipeline.validate_transform_result tier se be pe rows tte subj = true →
    rows.all (fun r => Pipeline.validate_embedding r.2.2.2 true) = true := by
  unfold Pipeline.validate_transform_result
  intro h
  split_ifs at h <;> simp_all <;> tauto

theorem weighted_mean_nonempty (r0 : String × Nat × ℚ × List ℚ)
    (rs : List (String × Nat × ℚ × List ℚ))
    (hlen : r0.2.2.2.length = EMBEDDING_DIM) :
    Chunking.weighted_mean_embedding ((r0 :: rs).map (fun r => r.2.2.2))
      ((r0 :: rs).map (fun r => r.2.2.1)) ≠ [] := by
  unfold Chunking.weighted_mean_embedding
  rw [if_neg (by simp)]
  simp only [List.map_cons, List.headD_cons]
  split_ifs with htot
  · intro hmap
    have hl := congrArg List.length hmap
    simp only [List.length_replicate, List.length_nil, hlen, EMBEDDING_DIM] at hl
    omega
  · intro hmap
    have hl := congrArg List.length hmap
    rw [List.length_map, foldl_addScaled_length _ _ _ (by simp), hlen] at hl
    simp [EMBEDDING_DIM] at hl

/-- C2: `weighted_mean_embedding` computes, per component, the weighted mean
`Σᵢ wᵢ·vᵢ / Σᵢ wᵢ` of the chunk vectors; all-zero weights yield the all-zero
vector of the input dimension; and the assembled write of `_transform_batch`
stores exactly `weighted_mean_embedding` of the chunk-row vectors and weights
as `body_pooled_embedding` whenever chunk rows exist. -/
theorem weighted_mean_embedding_correct :
    (∀ (embeddings : List (List ℚ)) (weights : List ℚ),
      embeddings ≠ [] → weights ≠ [] → embeddings.length = weights.length →
      weights.sum = 0 →
      Chunking.weighted_mean_embedding embeddings weights =
        List.replicate (embeddings.headD []).length 0) ∧
    (∀ (embeddings : List (List ℚ)) (weights : List ℚ),
      embeddings ≠ [] → weights ≠ [] → embeddings.length = weights.length →
      weights.sum ≠ 0 →
      ∀ j : Nat, j < (embeddings.headD []).length →
        (Chunking.weighted_mean_embedding embeddings weights).getD j 0 =
          ((embeddings.zip weights).map
            (fun ew => ew.2 * ew.1.getD j 0)).sum / weights.sum) ∧
    (∀ (p : Pipeline.PreparePayload) (subjectEmb bodyEmb : List ℚ)
       (chunksEmb : List (List ℚ × Nat × ℚ)) (st : Pipeline.StoredEmail),
      Pipeline.assembleOne p subjectEmb bodyEmb chunksEmb = some st →
      st.chunkRows ≠ [] →
      st.bodyPooledEmbedding = some (Chunking.weighted_mean_embedding
        (st.chunkRows.map (fun r => r.2.2.2)) (st.chunkRows.map (fun r => r.2.2.1)))) := by
  refine ⟨?_, ?_, ?_⟩
  · intro embeddings weights hne hwne hlen hsum
    unfold Chunking.weighted_mean_embedding
    rw [if_neg (by simp [hne, hwne, hlen]), if_pos hsum]
  · intro embeddings weights hne hwne hlen hsum j hj
    unfold Chunking.weighted_mean_embedding
    rw [if_neg (by simp [hne, hwne, hlen]), if_neg hsum]
    have hlen0 : ((embeddings.zip weights).foldl
        (fun o ew => Chunking.addScaled (embeddings.headD []).length o ew.1 ew.2)
        (List.replicate (embeddings.headD []).length 0)).length =
        (embeddings.headD []).length :=
      foldl_addScaled_length _ _ _ (by simp)
    rw [getD_map_div _ _ j (by rw [hlen0]; exact hj),
      foldl_addScaled_getD _ _ j hj]
    have hz : (List.replicate (embeddings.headD []).length (0 : ℚ)).getD j 0 = 0 := by
      rw [List.getD_eq_getElem _ _ (by simpa using hj), List.getElem_replicate]
    rw [hz, zero_add]
    have hmc : (embeddings.zip weights).map (fun ew => ew.1.getD j 0 * ew.2) =
        (embeddings.zip weights).map (fun ew => ew.2 * ew.1.getD j 0) :=
      List.map_congr_left (fun ew _ => mul_comm _ _)
    rw [hmc]
  · intro p subjectEmb bodyEmb chunksEmb st hassemble hrows
    simp only [Pipeline.assembleOne] at hassemble
    set rows := Pipeline.chunkRowsOf p.chunks chunksEmb with hrowsdef
    set pooled := (if rows ≠ [] then
        Chunking.weighted_mean_embedding (rows.map (fun r => r.2.2.2))
          (rows.map (fun r => r.2.2.1))
      else []) with hpooldef
    by_cases hval : Pipeline.validate_transform_result p.privacyTier subjectEmb
        bodyEmb pooled rows p.textToEmbed p.subject = true
    · rw [if_pos hval] at hassemble
      obtain hst := Option.some_inj.mp hassemble
      have hrows2 : st.chunkRows = rows := by rw [← hst]
      rw [hrows2] at hrows
      obtain ⟨r0, rs, hcons⟩ : ∃ r0 rs, rows = r0 :: rs := by
        cases h : rows with
        | nil => exact absurd h hrows
        | cons a b => exact ⟨a, b, rfl⟩
      have hall := validate_result_chunks _ _ _ _ _ _ _ hval
      have hr0 : Pipeline.validate_embedding r0.2.2.2 true = true :=
        List.all_eq_true.mp hall r0 (by rw [hcons]; exact List.mem_cons_self _ _)
      have hr0len := validate_embedding_content _ hr0
      have hpooledne : pooled ≠ [] := by
        rw [hpooldef, if_pos hrows, hcons]
        exact weighted_mean_nonempty r0 rs hr0len
      have hgoal1 : st.bodyPooledEmbedding = if pooled ≠ [] then some pooled else none := by
        rw [← hst]
      rw [hgoal1, if_pos hpooledne, hrows2, hpooldef, if_pos hrows]
    · rw [if_neg hval] at hassemble
      exact absurd hassemble (by simp)

/-- Witness for C2 at a concrete input: two 2-dimensional vectors with
weights 2 and 1 pool to `(2·1+1·3)/3 = 5/3` in component 0. -/
theorem weighted_mean_embedding_correct_witness :
    (Chunking.weighted_mean_embedding [[1, 2], [3, 5]] [2, 1]).getD 0 0 = 5 / 3 := by
  have h := weighted_mean_embedding_correct.2.1 [[1, 2], [3, 5]] [2, 1]
    (by simp) (by simp) (by simp) (by norm_num) 0 (by simp)
  rw [h]
  norm_num [List.zip_cons_cons]

theorem emitChunk_inv (st : Chunking.PackSt)
    (h1 : st.chunks.map (fun c => c.2.1) = List.range st.chunks.length)
    (h2 : st.position = st.chunks.length)
    (h3 : ∀ c ∈ st.chunks, c.2.2 = if c.2.1 = 0 then (2 : ℚ) else 1) :
    ((Chunking.emitChunk st).chunks.map (fun c => c.2.1) =
      List.range (Chunking.emitChunk st).chunks.length) ∧
    (Chunking.emitChunk st).position = (Chunking.emitChunk st).chunks.length ∧
    ∀ c ∈ (Chunking.emitChunk st).chunks, c.2.2 = if c.2.1 = 0 then (2 : ℚ) else 1 := by
  unfold Chunking.emitChunk
  refine ⟨?_, ?_, ?_⟩
  · simp only [List.map_append, List.map_cons, List.map_nil, List.length_append,
      List.length_cons, List.length_nil]
    rw [h1, h2]
    rw [show st.chunks.length + (0 + 1) = st.chunks.length + 1 by omega,
      List.range_succ]
  · simp only [List.length_append, List.length_cons, List.length_nil]
    omega
  · intro c hc
    rcases List.mem_append.mp hc with h | h
    · exact h3 c h
    · rcases List.mem_singleton.mp h with rfl
      rfl

theorem stepUnit_inv (target : Nat) (st : Chunking.PackSt) (u : String) (utok : Nat)
    (h1 : st.chunks.map (fun c => c.2.1) = List.range st.chunks.length)
    (h2 : st.position = st.chunks.length)
    (h3 : ∀ c ∈ st.chunks, c.2.2 = if c.2.1 = 0 then (2 : ℚ) else 1) :
    ((Chunking.stepUnit target st u utok).chunks.map (fun c => c.2.1) =
      List.range (Chunking.stepUnit target st u utok).chunks.length) ∧
    (Chunking.stepUnit target st u utok).position =
      (Chunking.stepUnit target st u utok).chunks.length ∧
    ∀ c ∈ (Chunking.stepUnit target st u utok).chunks,
      c.2.2 = if c.2.1 = 0 then (2 : ℚ) else 1 := by
  unfold Chunking.stepUnit
  dsimp only
  split_ifs with hcond
  · exact emitChunk_inv st h1 h2 h3
  · exact ⟨h1, h2, h3⟩

theorem foldl_stepUnit_inv (target : Nat) (tkf : String → Nat) (us : List String) :
    ∀ st : Chunking.PackSt,
      (st.chunks.map (fun c => c.2.1) = List.range st.chunks.length) →
      st.position = st.chunks.length →
      (∀ c ∈ st.chunks, c.2.2 = if c.2.1 = 0 then (2 : ℚ) else 1) →
      (((us.foldl (fun a u => Chunking.stepUnit target a u (tkf u)) st).chunks.map
          (fun c => c.2.1) =
        List.range (us.foldl (fun a u => Chunking.stepUnit target a u (tkf u)) st).chunks.length) ∧
      (us.foldl (fun a u => Chunking.stepUnit target a u (tkf u)) st).position =
        (us.foldl (fun a u => Chunking.stepUnit target a u (tkf u)) st).chunks.length ∧
      ∀ c ∈ (us.foldl (fun a u => Chunking.stepUnit target a u (tkf u)) st).chunks,
        c.2.2 = if c.2.1 = 0 then (2 : ℚ) else 1) := by
  induction us with
  | nil => exact fun st q1 q2 q3 => ⟨q1, q2, q3⟩
  | cons u us ih =>
    intro st q1 q2 q3
    rw [List.foldl_cons]
    obtain ⟨r1, r2, r3⟩ := stepUnit_inv target st u (tkf u) q1 q2 q3
    exact ih _ r1 r2 r3

theorem packParagraphs_inv (tok : String → Nat) (target : Nat)
    (paragraphs : List String) :
    ((Chunking.packParagraphs tok target paragraphs).chunks.map (fun c => c.2.1) =
      List.range (Chunking.packParagraphs tok target paragraphs).chunks.length) ∧
    (Chunking.packParagraphs tok target paragraphs).position =
      (Chunking.packParagraphs tok target paragraphs).chunks.length ∧
    ∀ c ∈ (Chunking.packParagraphs tok target paragraphs).chunks,
      c.2.2 = if c.2.1 = 0 then (2 : ℚ) else 1 := by
  unfold Chunking.packParagraphs
  have main : ∀ (ps : List String) (st : Chunking.PackSt),
      (st.chunks.map (fun c => c.2.1) = List.range st.chunks.length) →
      st.position = st.chunks.length →
      (∀ c ∈ st.chunks, c.2.2 = if c.2.1 = 0 then (2 : ℚ) else 1) →
      (((ps.foldl (fun st para =>
          let paraTokens := tok para
          if paraTokens > target then
            (Chunking.sentenceUnits para).foldl
              (fun st2 s => Chunking.stepUnit target st2 s (tok s)) st
          else Chunking.stepUnit target st para paraTokens) st).chunks.map
            (fun c => c.2.1) =
        List.range (ps.foldl (fun st para =>
          let paraTokens := tok para
          if paraTokens > target then
            (Chunking.sentenceUnits para).foldl
              (fun st2 s => Chunking.stepUnit target st2 s (tok s)) st
          else Chunking.stepUnit target st para paraTokens) st).chunks.length) ∧
      (ps.foldl (fun st para =>
          let paraTokens := tok para
          if paraTokens > target then
            (Chunking.sentenceUnits para).foldl
              (fun st2 s => Chunking.stepUnit target st2 s (tok s)) st
          else Chunking.stepUnit target st para paraTokens) st).position =
        (ps.foldl (fun st para =>
          let paraTokens := tok para
          if paraTokens > target then
            (Chunking.sentenceUnits para).foldl
              (fun st2 s => Chunking.stepUnit target st2 s (tok s)) st
          else Chunking.stepUnit target st para paraTokens) st).chunks.length ∧
      ∀ c ∈ (ps.foldl (fun st para =>
          let paraTokens := tok para
          if paraTokens > target then
            (Chunking.sentenceUnits para).foldl
              (fun st2 s => Chunking.stepUnit target st2 s (tok s)) st
          else Chunking.stepUnit target st para paraTokens) st).chunks,
        c.2.2 = if c.2.1 = 0 then (2 : ℚ) else 1) := by
    intro ps
    induction ps with
    | nil => exact fun st q1 q2 q3 => ⟨q1, q2, q3⟩
    | cons para ps ih =>
      intro st q1 q2 q3
      rw [List.foldl_cons]
      dsimp only
      by_cases hpt : tok para > target
      · rw [if_pos hpt]
        obtain ⟨r1, r2, r3⟩ :=
          foldl_stepUnit_inv target tok (Chunking.sentenceUnits para) st q1 q2 q3
        exact ih _ r1 r2 r3
      · rw [if_neg hpt]
        obtain ⟨r1, r2, r3⟩ := stepUnit_inv target st para (tok para) q1 q2 q3
        exact ih _ r1 r2 r3
  exact main paragraphs ⟨[], [], 0, 0⟩ (by simp) (by simp) (by simp)

theorem chunk_body_frags_inv (tok : String → Nat) (maxTokens target : Nat)
    (body : String) :
    ((Chunking.chunk_body_frags tok maxTokens target body).map (fun c => c.2.1) =
      List.range (Chunking.chunk_body_frags tok maxTokens target body).length) ∧
    ∀ c ∈ Chunking.chunk_body_frags tok maxTokens target body,
      c.2.2 = if c.2.1 = 0 then (2 : ℚ) else 1 := by
  unfold Chunking.chunk_body_frags
  split_ifs with hblank htok
  · simp
  · simp
  · obtain ⟨r1, r2, r3⟩ := packParagraphs_inv tok target
      (match Chunking.split_into_paragraphs body with
       | [] =>
         match Chunking.sentenceUnits body with
         | [] => [body]
         | ps => ps
       | ps => ps)
    dsimp only
    split_ifs with hcur
    · obtain ⟨e1, _, e3⟩ := emitChunk_inv _ r1 r2 r3
      exact ⟨e1, e3⟩
    · exact ⟨r1, r3⟩

theorem insertByPos_append (x : List ℚ × Nat × ℚ) :
    ∀ acc : List (List ℚ × Nat × ℚ), (∀ y ∈ acc, y.2.1 ≤ x.2.1) →
      Pipeline.insertByPos x acc = acc ++ [x] := by
  intro acc
  induction acc with
  | nil => intro _; rfl
  | cons y ys ih =>
    intro h
    unfold Pipeline.insertByPos
    rw [if_pos (h y (List.mem_cons_self _ _))]
    rw [ih (fun z hz => h z (List.mem_cons_of_mem _ hz))]
    simp

theorem foldl_insertByPos_sorted :
    ∀ (zs acc : List (List ℚ × Nat × ℚ)),
      acc.Pairwise (fun a b => a.2.1 ≤ b.2.1) →
      (∀ y ∈ acc, ∀ z ∈ zs, y.2.1 ≤ z.2.1) →
      zs.Pairwise (fun a b => a.2.1 ≤ b.2.1) →
      zs.foldl (fun a x => Pipeline.insertByPos x a) acc = acc ++ zs := by
  intro zs
  induction zs with
  | nil => intro acc _ _ _; simp
  | cons z zs ih =>
    intro acc hacc hcross hzs
    rw [List.foldl_cons,
      insertByPos_append z acc (fun y hy => hcross y hy z (List.mem_cons_self _ _))]
    rw [ih (acc ++ [z]) ?_ ?_ (List.Pairwise.of_cons hzs)]
    · simp
    · apply List.pairwise_append.mpr
      refine ⟨hacc, List.pairwise_singleton _ _, ?_⟩
      intro y hy z' hz'
      rcases List.mem_singleton.mp hz' with rfl
      exact hcross y hy z' (List.mem_cons_self _ _)
    · intro y hy w hw
      rcases List.mem_append.mp hy with h | h
      · exact hcross y h w (List.mem_cons_of_mem _ hw)
      · rcases List.mem_singleton.mp h with rfl
        exact (List.pairwise_cons.mp hzs).1 w hw

theorem sortByPos_of_sorted (zs : List (List ℚ × Nat × ℚ))
    (h : zs.Pairwise (fun a b => a.2.1 ≤ b.2.1)) :
    Pipeline.sortByPos zs = zs := by
  unfold Pipeline.sortByPos
  rw [foldl_insertByPos_sorted zs [] List.Pairwise.nil (by simp) h]
  simp

theorem zipWith_chunkEmb_positions (vecs : List (List ℚ)) :
    ∀ cs : List Chunking.Chunk, cs.length = vecs.length →
      (cs.zipWith (fun c v => ((v, c.position, c.weight) : List ℚ × Nat × ℚ)) vecs).map
          (fun z => z.2.1) = cs.map Chunking.Chunk.position := by
  induction vecs with
  | nil => intro cs h; rw [List.length_nil] at h; rw [List.eq_nil_of_length_eq_zero h]; rfl
  | cons v vs ih =>
    intro cs h
    cases cs with
    | nil => simp at h
    | cons c cs' =>
      simp only [List.zipWith_cons_cons, List.map_cons]
      rw [ih cs' (by simpa using h)]

theorem mem_zipWith_chunkEmb (cs : List Chunking.Chunk) (vecs : List (List ℚ))
    (z : List ℚ × Nat × ℚ)
    (hz : z ∈ cs.zipWith (fun c v => ((v, c.position, c.weight) : List ℚ × Nat × ℚ)) vecs) :
    ∃ c ∈ cs, z.2.1 = c.position ∧ z.2.2 = c.weight := by
  induction cs generalizing vecs with
  | nil => simp at hz
  | cons c cs' ih =>
    cases vecs with
    | nil => simp at hz
    | cons v vs =>
      rw [List.zipWith_cons_cons] at hz
      rcases List.mem_cons.mp hz with h | h
      · exact ⟨c, List.mem_cons_self _ _, by rw [h], by rw [h]⟩
      · obtain ⟨c', hc', h1, h2⟩ := ih vs h
        exact ⟨c', List.mem_cons_of_mem _ hc', h1, h2⟩

/-- C6: chunk positions form exactly `{0, …, n−1}` in order, the chunk at
position 0 has weight 2.0 and every other chunk weight 1.0, both for
`chunk_body`'s output and for the chunk rows assembled for storage by
`_transform_batch` (which sorts the reassembled vectors by position). -/
theorem chunk_rows_contiguous :
    (∀ (tok : String → Nat) (maxTokens target : Nat) (body : String),
      ((Chunking.chunk_body tok maxTokens target body).map Chunking.Chunk.position =
        List.range (Chunking.chunk_body tok maxTokens target body).length) ∧
      ∀ c ∈ Chunking.chunk_body tok maxTokens target body,
        c.weight = if c.position = 0 then (2 : ℚ) else 1) ∧
    (∀ (cs : List Chunking.Chunk) (vecs : List (List ℚ)),
      cs.length = vecs.length →
      (cs.map Chunking.Chunk.position = List.range cs.length) →
      (∀ c ∈ cs, c.weight = if c.position = 0 then (2 : ℚ) else 1) →
      ((Pipeline.chunkRowsOf cs
          (cs.zipWith (fun c v => (v, c.position, c.weight)) vecs)).map
            (fun r => r.2.1) = List.range cs.length ∧
       ∀ r ∈ Pipeline.chunkRowsOf cs
          (cs.zipWith (fun c v => (v, c.position, c.weight)) vecs),
         r.2.2.1 = if r.2.1 = 0 then (2 : ℚ) else 1)) := by
  constructor
  · intro tok maxTokens target body
    obtain ⟨h1, h3⟩ := chunk_body_frags_inv tok maxTokens target body
    constructor
    · unfold Chunking.chunk_body Chunking.toChunks
      rw [List.map_map, List.length_map]
      exact h1
    · intro c hc
      unfold Chunking.chunk_body Chunking.toChunks at hc
      obtain ⟨fc, hfc, hceq⟩ := List.mem_map.mp hc
      rw [← hceq]
      exact h3 fc hfc
  · intro cs vecs hlen hpos hw
    have hkeys : (cs.zipWith (fun c v => ((v, c.position, c.weight) : List ℚ × Nat × ℚ)) vecs).map
        (fun z => z.2.1) = List.range cs.length := by
      rw [zipWith_chunkEmb_positions vecs cs hlen, hpos]
    have hsorted : (cs.zipWith (fun c v => ((v, c.position, c.weight) : List ℚ × Nat × ℚ)) vecs).Pairwise
        (fun a b => a.2.1 ≤ b.2.1) := by
      have hmapped : ((cs.zipWith
          (fun c v => ((v, c.position, c.weight) : List ℚ × Nat × ℚ)) vecs).map
            (fun z => z.2.1)).Pairwise (· ≤ ·) := by
        rw [hkeys]
        exact (List.pairwise_lt_range _).imp le_of_lt
      exact List.pairwise_map.mp hmapped
    unfold Pipeline.chunkRowsOf
    rw [sortByPos_of_sorted _ hsorted]
    constructor
    · rw [List.map_map]
      have hcomp : ((fun r : String × Nat × ℚ × List ℚ => r.2.1) ∘
          (fun ivpw : Nat × (List ℚ × Nat × ℚ) =>
            (((cs.getD ivpw.1 default).text, ivpw.2.2.1, ivpw.2.2.2, ivpw.2.1) :
              String × Nat × ℚ × List ℚ))) =
          (fun p : Nat × (List ℚ × Nat × ℚ) => p.2.2.1) := rfl
      rw [hcomp]
      have henum : (cs.zipWith (fun c v => ((v, c.position, c.weight) : List ℚ × Nat × ℚ)) vecs).enum.map
          (fun p => p.2.2.1) =
          (cs.zipWith (fun c v => ((v, c.position, c.weight) : List ℚ × Nat × ℚ)) vecs).map
            (fun z => z.2.1) := by
        rw [show (fun p : Nat × (List ℚ × Nat × ℚ) => p.2.2.1) =
            ((fun z : List ℚ × Nat × ℚ => z.2.1) ∘ Prod.snd) from rfl,
          ← List.map_map, List.enum_map_snd]
      rw [henum, hkeys]
    · intro r hr
      obtain ⟨ivpw, hivpw, hreq⟩ := List.mem_map.mp hr
      have hzmem : ivpw.2 ∈ cs.zipWith
          (fun c v => ((v, c.position, c.weight) : List ℚ × Nat × ℚ)) vecs := by
        rw [← List.enum_map_snd (cs.zipWith
          (fun c v => ((v, c.position, c.weight) : List ℚ × Nat × ℚ)) vecs)]
        exact List.mem_map_of_mem Prod.snd hivpw
      obtain ⟨c, hc, hpos1, hw1⟩ := mem_zipWith_chunkEmb cs vecs ivpw.2 hzmem
      rw [← hreq]
      dsimp only
      rw [hpos1, hw1]
      exact hw c hc

/-- Witness for C6 at a concrete chunked body of three paragraphs (token
oracle = character count, limit 2, target 2): the assembled chunk rows carry
positions `0, 1, 2`. -/
theorem chunk_rows_contiguous_witness :
    (Pipeline.chunkRowsOf (Chunking.chunk_body (fun s => s.length) 2 2 "ab\n\ncd\n\nef")
        ((Chunking.chunk_body (fun s => s.length) 2 2 "ab\n\ncd\n\nef").zipWith
          (fun c v => (v, c.position, c.weight)) [[1], [1], [1]])).map
        (fun r => r.2.1) =
      List.range (Chunking.chunk_body (fun s => s.length) 2 2 "ab\n\ncd\n\nef").length :=
  (chunk_rows_contiguous.2 (Chunking.chunk_body (fun s => s.length) 2 2 "ab\n\ncd\n\nef")
    [[1], [1], [1]] (by decide)
    (chunk_rows_contiguous.1 (fun s => s.length) 2 2 "ab\n\ncd\n\nef").1
    (chunk_rows_contiguous.1 (fun s => s.length) 2 2 "ab\n\ncd\n\nef").2).1

theorem stepUnit_tok_inv (tok : String → Nat) (target : Nat)
    (st : Chunking.PackSt) (u : String)
    (h1 : ∀ c ∈ st.chunks, 2 ≤ c.1.length → (c.1.map tok).sum ≤ target)
    (h2 : st.currentTokens = (st.current.map tok).sum)
    (h3 : 2 ≤ st.current.length → st.currentTokens ≤ target) :
    (∀ c ∈ (Chunking.stepUnit target st u (tok u)).chunks,
      2 ≤ c.1.length → (c.1.map tok).sum ≤ target) ∧
    (Chunking.stepUnit target st u (tok u)).currentTokens =
      (((Chunking.stepUnit target st u (tok u)).current).map tok).sum ∧
    (2 ≤ (Chunking.stepUnit target st u (tok u)).current.length →
      (Chunking.stepUnit target st u (tok u)).currentTokens ≤ target) := by
  unfold Chunking.stepUnit
  dsimp only
  split_ifs with hcond
  · refine ⟨?_, ?_, ?_⟩
    · intro c hc
      simp only [Chunking.emitChunk, List.mem_append, List.mem_singleton] at hc
      rcases hc with h | h
      · exact h1 c h
      · subst h
        intro hlen
        rw [← h2]
        exact h3 hlen
    · simp [Chunking.emitChunk]
    · intro h
      simp [Chunking.emitChunk] at h
  · refine ⟨h1, ?_, ?_⟩
    · rw [List.map_append, List.sum_append, ← h2]
      simp
    · intro hlen
      rcases Decidable.em (st.current = []) with hnil | hnn
      · rw [hnil] at hlen
        simp at hlen
      · have hle : ¬ st.currentTokens + tok u > target := fun hgt => hcond ⟨hgt, hnn⟩
        omega

theorem foldl_stepUnit_tok_inv (tok : String → Nat) (target : Nat)
    (us : List String) :
    ∀ st : Chunking.PackSt,
      (∀ c ∈ st.chunks, 2 ≤ c.1.length → (c.1.map tok).sum ≤ target) →
      st.currentTokens = (st.current.map tok).sum →
      (2 ≤ st.current.length → st.currentTokens ≤ target) →
      ((∀ c ∈ (us.foldl (fun a u => Chunking.stepUnit target a u (tok u)) st).chunks,
          2 ≤ c.1.length → (c.1.map tok).sum ≤ target) ∧
       (us.foldl (fun a u => Chunking.stepUnit target a u (tok u)) st).currentTokens =
         ((us.foldl (fun a u => Chunking.stepUnit target a u (tok u)) st).current.map tok).sum ∧
       (2 ≤ (us.foldl (fun a u => Chunking.stepUnit target a u (tok u)) st).current.length →
         (us.foldl (fun a u => Chunking.stepUnit target a u (tok u)) st).currentTokens ≤ target)) := by
  induction us with
  | nil => exact fun st q1 q2 q3 => ⟨q1, q2, q3⟩
  | cons u us ih =>
    intro st q1 q2 q3
    rw [List.foldl_cons]
    obtain ⟨r1, r2, r3⟩ := stepUnit_tok_inv tok target st u q1 q2 q3
    exact ih _ r1 r2 r3

/-- C5 (amended): a chunk that packs two or more split units (paragraphs or
sentences) has unit token counts summing to at most `target_chunk_tokens`;
only a chunk consisting of a single oversized unit can exceed the embedder's
token limit, and the joined chunk text itself is never re-measured. -/
theorem chunk_multifragment_bounded (tok : String → Nat)
    (maxTokens target : Nat) (body : String) :
    ∀ c ∈ Chunking.chunk_body_frags tok maxTokens target body,
      2 ≤ c.1.length → (c.1.map tok).sum ≤ target := by
  unfold Chunking.chunk_body_frags
  split_ifs with hblank htok
  · simp
  · simp
  · have main : ∀ (ps : List String) (st : Chunking.PackSt),
        (∀ c ∈ st.chunks, 2 ≤ c.1.length → (c.1.map tok).sum ≤ target) →
        st.currentTokens = (st.current.map tok).sum →
        (2 ≤ st.current.length → st.currentTokens ≤ target) →
        ((∀ c ∈ (ps.foldl (fun st para =>
            let paraTokens := tok para
            if paraTokens > target then
              (Chunking.sentenceUnits para).foldl
                (fun st2 s => Chunking.stepUnit target st2 s (tok s)) st
            else Chunking.stepUnit target st para paraTokens) st).chunks,
            2 ≤ c.1.length → (c.1.map tok).sum ≤ target) ∧
         (ps.foldl (fun st para =>
            let paraTokens := tok para
            if paraTokens > target then
              (Chunking.sentenceUnits para).foldl
                (fun st2 s => Chunking.stepUnit target st2 s (tok s)) st
            else Chunking.stepUnit target st para paraTokens) st).currentTokens =
           ((ps.foldl (fun st para =>
            let paraTokens := tok para
            if paraTokens > target then
              (Chunking.sentenceUnits para).foldl
                (fun st2 s => Chunking.stepUnit target st2 s (tok s)) st
            else Chunking.stepUnit target st para paraTokens) st).current.map tok).sum ∧
         (2 ≤ (ps.foldl (fun st para =>
            let paraTokens := tok para
            if paraTokens > target then
              (Chunking.sentenceUnits para).foldl
                (fun st2 s => Chunking.stepUnit target st2 s (tok s)) st
            else Chunking.stepUnit target st para paraTokens) st).current.length →
           (ps.foldl (fun st para =>
            let paraTokens := tok para
            if paraTokens > target then
              (Chunking.sentenceUnits para).foldl
                (fun st2 s => Chunking.stepUnit target st2 s (tok s)) st
            else Chunking.stepUnit target st para paraTokens) st).currentTokens ≤ target)) := by
      intro ps
      induction ps with
      | nil => exact fun st q1 q2 q3 => ⟨q1, q2, q3⟩
      | cons para ps ih =>
        intro st q1 q2 q3
        rw [List.foldl_cons]
        dsimp only
        by_cases hpt : tok para > target
        · rw [if_pos hpt]
          obtain ⟨r1, r2, r3⟩ :=
            foldl_stepUnit_tok_inv tok target (Chunking.sentenceUnits para) st q1 q2 q3
          exact ih _ r1 r2 r3
        · rw [if_neg hpt]
          obtain ⟨r1, r2, r3⟩ := stepUnit_tok_inv tok target st para q1 q2 q3
          exact ih _ r1 r2 r3
    obtain ⟨r1, r2, r3⟩ := main
      (match Chunking.split_into_paragraphs body with
       | [] =>
         match Chunking.sentenceUnits body with
         | [] => [body]
         | ps => ps
       | ps => ps)
      ⟨[], [], 0, 0⟩ (by simp) (by simp) (by simp)
    dsimp only [Chunking.packParagraphs]
    split_ifs with hcur
    · intro c hc
      simp only [Chunking.emitChunk, List.mem_append, List.mem_singleton] at hc
      rcases hc with h | h
      · exact r1 c h
      · subst h
        intro hlen
        rw [← r2]
        exact r3 hlen
    · exact r1

/-- Witness for C5 (amended) at a concrete body of three 2-character
paragraphs with target 5: the first emitted chunk packs the two fragments
"ab", "cd", and their token counts sum to 4 ≤ 5. -/
theorem chunk_multifragment_bounded_witness :
    2 ≤ (["ab", "cd"] : List String).length ∧
    ((["ab", "cd"] : List String).map (fun s : String => s.length)).sum ≤ 5 := by
  have hmem : ((["ab", "cd"], 0, (2 : ℚ)) : List String × Nat × ℚ) ∈
      Chunking.chunk_body_frags (fun s => s.length) 4 5 "ab\n\ncd\n\nef" := by
    rw [show Chunking.chunk_body_frags (fun s => s.length) 4 5 "ab\n\ncd\n\nef" =
        [(["ab", "cd"], 0, 2), (["ef"], 1, 1)] from by decide]
    exact List.mem_cons_self _ _
  exact ⟨by decide,
    chunk_multifragment_bounded (fun s => s.length) 4 5 "ab\n\ncd\n\nef"
      (["ab", "cd"], 0, 2) hmem (by decide)⟩

/-- Counterexample to C5 as stated: a body that is a single unbreakable unit
whose token count (10000, by the embedding service's tokeniser) exceeds both
the 7500-token target and the 8192-token embed limit is emitted as one chunk
whose token count exceeds `embed.max_tokens`. -/
theorem chunk_exceeds_max_tokens :
    ∃ c ∈ Chunking.chunk_body (fun _ => 10000) 8192 7500 "aaaaaaa",
      ¬ ((fun _ : String => 10000) c.text ≤ 8192) := by
  refine ⟨⟨"aaaaaaa", 0, 2⟩, ?_, by norm_num⟩
  rw [show Chunking.chunk_body (fun _ => 10000) 8192 7500 "aaaaaaa" =
      [⟨"aaaaaaa", 0, 2⟩] from by decide]
  exact List.mem_singleton_self _

theorem fit_loop_terminates (tokPrompt : String → Nat) (maxPromptTokens : Nat)
    (bodyText : String) :
    ∀ (fuel startLen endLen : Nat), startLen + endLen < fuel →
      ∃ r, Privacy.fit_loop tokPrompt maxPromptTokens bodyText startLen endLen fuel =
          some r ∧
        (tokPrompt r ≤ maxPromptTokens ∨
          r = Privacy.pyHead bodyText 100 ++ "\n...\n" ++ Privacy.pyTail bodyText 100) := by
  intro fuel
  induction fuel with
  | zero => intro s e h; omega
  | succ fb ih =>
    intro startLen endLen hle
    simp only [Privacy.fit_loop]
    generalize (if startLen + endLen ≥ bodyText.length then bodyText
      else Privacy.pyHead bodyText startLen ++ "\n...\n" ++
        Privacy.pyTail bodyText endLen) = preview
    split_ifs with hfit hfloor
    · exact ⟨_, rfl, Or.inl hfit⟩
    · refine ⟨_, rfl, Or.inr ?_⟩
      rw [Nat.le_antisymm hfloor.1 (Nat.le_max_left _ _),
        Nat.le_antisymm hfloor.2 (Nat.le_max_left _ _)]
    · have hmeas : max 100 (startLen - 500) + max 100 (endLen - 200) < fb + 1 := by
        rcases Decidable.not_and_iff_or_not.mp hfloor with h | h
        · have h1 : 100 < max 100 (startLen - 500) := Nat.lt_of_not_le h
          rw [Nat.max_def] at h1 ⊢
          rw [Nat.max_def]
          split_ifs at * <;> omega
        · have h1 : 100 < max 100 (endLen - 200) := Nat.lt_of_not_le h
          rw [Nat.max_def] at h1 ⊢
          rw [Nat.max_def]
          split_ifs at * <;> omega
      exact ih _ _ (by omega)

/-- C7: `_fit_body_to_budget` terminates for every body string and every
token-count oracle: starting from `start_len = n//2 + n//4` and
`end_len = n//4`, each failed fit decrements `start_len` by 500 and
`end_len` by 200 with floors of 100 (the decrement schedule is the loop's
definition), the loop returns within `start_len + end_len + 1` iterations,
and the returned preview either fits the budget or is exactly the
unconditional 100/100-floor preview `body[:100] + "\n...\n" + body[-100:]`. -/
theorem fit_body_to_budget_total (tokPrompt : String → Nat)
    (maxPromptTokens : Nat) (bodyText : String) :
    ∃ r, Privacy.fit_body_to_budget tokPrompt maxPromptTokens bodyText = some r ∧
      (tokPrompt r ≤ maxPromptTokens ∨
        r = Privacy.pyHead bodyText 100 ++ "\n...\n" ++ Privacy.pyTail bodyText 100) := by
  unfold Privacy.fit_body_to_budget
  split_ifs with h
  · exact ⟨bodyText, rfl, Or.inl h⟩
  · exact fit_loop_terminates tokPrompt maxPromptTokens bodyText _ _ _ (by omega)

/-- C3 (amended): tier parsing strips every `<think>` block (including a
trailing unterminated one) and uppercases the remainder; on a *non-empty*
remainder it applies steps (1)-(5) in order (exact match, first-token match,
variant substring, word-boundary search, substring search) and raises with a
100-character preview of the raw response when all five fail; on an *empty*
remainder it first falls back to word-boundary/substring extraction from the
raw (unstripped) response and raises without a preview only if that also
fails.  In particular `"<think>hmm</think> PUBLIC"` parses to PUBLIC. -/
theorem parse_tier_behaviour :
    (Privacy.parse_tier "<think>hmm</think> PUBLIC" = .ok "PUBLIC") ∧
    (∀ raw : String,
      (Py.strip (Privacy.strip_think_block raw.data)).map Char.toUpper ≠ [] →
      Privacy.parse_tier raw =
        (match Privacy.tierStages
            ((Py.strip (Privacy.strip_think_block raw.data)).map Char.toUpper) with
         | some t => .ok (String.mk t)
         | none => .error (Privacy.parseErrMsg raw))) ∧
    (∀ raw : String,
      (Py.strip (Privacy.strip_think_block raw.data)).map Char.toUpper = [] →
      Privacy.parse_tier raw =
        (match Privacy.extract_tier_from_text raw.data with
         | some t => .ok (String.mk t)
         | none => .error Privacy.emptyMsg)) ∧
    (∀ raw : String, (Privacy.previewOf raw).data.take 100 = raw.data.take 100) := by
  refine ⟨by rfl, ?_, ?_, ?_⟩
  · intro raw h
    unfold Privacy.parse_tier
    rw [if_neg h]
  · intro raw h
    unfold Privacy.parse_tier
    rw [if_pos h]
  · intro raw
    obtain ⟨l⟩ := raw
    unfold Privacy.previewOf
    split_ifs with h
    · have hsl : String.length ⟨l⟩ = l.length := rfl
      have h100 : 100 ≤ l.length := by
        have h' : 100 < String.length ⟨l⟩ := h
        omega
      have hlen : (l.take 100).length = 100 := by
        rw [List.length_take]
        omega
      rw [show (String.mk (l.take 100) ++ "…").data =
          l.take 100 ++ "…".data from rfl]
      rw [List.take_append_of_le_length (by omega), List.take_take]
      simp
    · rfl

/-- Witness for C3 at a concrete unparsable input: the error carries the
preview-bearing message. -/
theorem parse_tier_behaviour_witness :
    Privacy.parse_tier "XYZQ" = .error (Privacy.parseErrMsg "XYZQ") := by
  have h := parse_tier_behaviour.2.1 "XYZQ" (by decide)
  rw [h]
  rfl

/-- Counterexample to C3 as stated: on `"<think>PERSONAL"` the remainder
after think-stripping is empty, so the claim's algorithm (steps (1)-(5) then
raise with preview) raises, while `_parse_tier` recovers PERSONAL from the
raw response. -/
theorem parse_tier_counterexample :
    Privacy.parse_tier "<think>PERSONAL" = .ok "PERSONAL" ∧
    Privacy.parse_tier_claim "<think>PERSONAL" =
      .error (Privacy.parseErrMsg "<think>PERSONAL") := by
  exact ⟨by rfl, by rfl⟩

/-- Counterexample to C8 as stated: at `max_model_len = 3500` with no
explicit `classify_body_max_chars`, the code yields
`min(6000, 3500·4/2) = 6000`, while the claim's formula
`min(8000, 3500·4/2)` yields 7000. -/
theorem classify_max_chars_counterexample :
    CapLoader.get_classify_max_chars none (some 3500) = .ok 6000 ∧
    min 8000 (3500 * 4 / 2) = 7000 ∧ (6000 : Nat) ≠ 7000 :=
  ⟨rfl, by norm_num, by norm_num⟩

/-- C8 (amended): with no explicit `classify_body_max_chars` in the
capability set, the classification character budget equals
`min(6000, llm.max_model_len·4/2)` — the default cap is 6000, not 8000 —
which simplifies to `min 6000 (2·max_model_len)`. -/
theorem classify_max_chars_default (m : Nat) :
    CapLoader.get_classify_max_chars none (some m) = .ok (min 6000 (2 * m)) := by
  show Except.ok (min CapLoader.DEFAULT_CLASSIFY_MAX_CHARS (m * 4 / 2)) = _
  rw [show m * 4 / 2 = 2 * m from by omega]
  rfl

/-- Counterexample to C9 as stated: when the language-detector call raises
(here an HTTP failure), `_prepare_one` fails with that error instead of
proceeding with "en" — no payload is produced and the email is not
transformed. -/
theorem detect_failure_fails_prepare :
    Pipeline.prepare_one
      { preprocess := fun s => s, redact := fun b _ => b,
        classify := .ok PrivacyTier.PUBLIC,
        detect := FastText.detect_language true "body" (.error "HTTP 500"),
        tok := fun _ => 1, embedderSet := true, maxTokens := 8192 }
      { id := 1, bodyText := "body", subject := "S", snippet := "" } =
      .error "HTTP 500" := rfl

/-- C9 (amended): `detect_language` returns the default "en" for blank
input, an empty predictions list, and a top prediction with confidence below
0.5; but an exception from the detector call propagates out of
`_prepare_one`, failing the per-email preparation instead of proceeding
with "en". -/
theorem detect_language_default_en :
    (∀ (text : String) (resp : Except String (List FastText.Prediction)),
      Py.stripS text = "" → FastText.detect_language true text resp = .ok "en") ∧
    (∀ text : String, FastText.detect_language true text (.ok []) = .ok "en") ∧
    (∀ (text lang : String) (c : ℚ), c < 1 / 2 →
      FastText.detect_language true text (.ok [⟨lang, some c⟩]) = .ok "en") ∧
    (∀ (env : Pipeline.PrepareEnv) (email : Pipeline.EmailRow) (t : Nat) (e : String),
      env.classify = .ok t → env.detect = .error e →
      Pipeline.prepare_one env email = .error e) := by
  refine ⟨?_, ?_, ?_, ?_⟩
  · intro text resp h
    unfold FastText.detect_language
    rw [if_neg (by simp), if_pos h]
  · intro text
    unfold FastText.detect_language
    rw [if_neg (by simp)]
    split_ifs with h
    · rfl
    · rfl
  · intro text lang c h
    unfold FastText.detect_language
    rw [if_neg (by simp)]
    split_ifs with hb
    · rfl
    · simp only [List.headD_cons]
      rw [if_neg (by simp)]
      have hdec : decide (c < FastText.DETECT_CONFIDENCE_THRESHOLD) = true :=
        decide_eq_true (by
          unfold FastText.DETECT_CONFIDENCE_THRESHOLD
          exact h)
      simp [hdec]
  · intro env email t e hc hd
    unfold Pipeline.prepare_one
    rw [hc, hd]
    rfl

/-- Witness for C9 (amended) at a concrete environment whose detector call
fails with "boom": the preparation fails with "boom". -/
theorem detect_language_default_en_witness :
    Pipeline.prepare_one
      { preprocess := fun s => s, redact := fun b _ => b,
        classify := .ok PrivacyTier.PUBLIC, detect := .error "boom",
        tok := fun _ => 1, embedderSet := true, maxTokens := 8192 }
      { id := 7, bodyText := "b", subject := "", snippet := "" } =
      .error "boom" :=
  detect_language_default_en.2.2.2 _ _ PrivacyTier.PUBLIC "boom" rfl rfl

/-- C10: `_sync_post` returns the D-dimensional all-zero vector on the
empty-string input and the empty list on the empty-list input, in both cases
issuing no HTTP request (the request log is empty), for every oracle and URL
configuration — hence `encode`/`encode_sync` do the same. -/
theorem sync_post_empty_inputs (urlSet : Bool)
    (oracle : List String → Embeddings.HttpResp) :
    Embeddings.sync_post_str urlSet oracle "" =
      (.ok (List.replicate EMBEDDING_DIM 0), []) ∧
    Embeddings.sync_post_list urlSet oracle [] = (.ok [], []) :=
  ⟨rfl, rfl⟩

theorem embed_one_dim (urlSet : Bool) (oracle : List String → Embeddings.HttpResp)
    (t : String) (v : List ℚ)
    (h : Embeddings.embed_one urlSet oracle t = .ok v) :
    v.length = EMBEDDING_DIM := by
  unfold Embeddings.embed_one at h
  cases hm : (Embeddings.sync_post_list urlSet oracle [t]).1 with
  | error e => rw [hm] at h; exact absurd h (by simp)
  | ok result =>
    rw [hm] at h
    dsimp only at h
    split_ifs at h with h1 h2
    all_goals try exact Except.noConfusion h
    simp only [not_not] at h2
    have hv : result.headD [] = v := Except.ok.inj h
    rw [← hv]
    simpa using h2

theorem retry_each_dims (urlSet : Bool) (oracle : List String → Embeddings.HttpResp) :
    ∀ (subs : List String) (out : List (List ℚ)),
      Embeddings.retry_each urlSet oracle subs = .ok out →
      out.length = subs.length ∧ ∀ v ∈ out, v.length = EMBEDDING_DIM := by
  intro subs
  induction subs with
  | nil =>
    intro out h
    unfold Embeddings.retry_each at h
    have : ([] : List (List ℚ)) = out := Except.ok.inj h
    rw [← this]
    exact ⟨rfl, by simp⟩
  | cons t rest ih =>
    intro out h
    unfold Embeddings.retry_each at h
    have hstep : ∀ (v : List ℚ),
        (match Embeddings.embed_one urlSet oracle t with
          | .ok v => Except.ok v
          | .error .http413 =>
            if t.length > 256 then
              Embeddings.embed_one urlSet oracle (String.mk (t.data.take (t.length / 2)))
            else .error .http413
          | .error e => .error e) = .ok v →
        v.length = EMBEDDING_DIM := by
      intro v hv
      cases he : Embeddings.embed_one urlSet oracle t with
      | ok w =>
        rw [he] at hv
        have : w = v := Except.ok.inj hv
        rw [← this]
        exact embed_one_dim urlSet oracle t w he
      | error e =>
        rw [he] at hv
        cases e with
        | http413 =>
          dsimp only at hv
          split_ifs at hv with hlen
          all_goals try exact Except.noConfusion hv
          all_goals exact embed_one_dim urlSet oracle _ v hv
        | httpOther => exact absurd hv (by simp)
        | runtimeErr => exact absurd hv (by simp)
        | valueError m => exact absurd hv (by simp)
    cases hr : (match Embeddings.embed_one urlSet oracle t with
        | .ok v => Except.ok v
        | .error .http413 =>
          if t.length > 256 then
            Embeddings.embed_one urlSet oracle (String.mk (t.data.take (t.length / 2)))
          else .error .http413
        | .error e => .error e) with
    | error e =>
      rw [hr] at h
      exact absurd h (by simp)
    | ok v =>
      rw [hr] at h
      cases hrest : Embeddings.retry_each urlSet oracle rest with
      | error e =>
        rw [hrest] at h
        exact absurd h (by simp [Except.map])
      | ok out' =>
        rw [hrest] at h
        have hout : v :: out' = out := by
          simpa [Except.map] using h
        obtain ⟨ih1, ih2⟩ := ih out' hrest
        rw [← hout]
        refine ⟨by simp [ih1], ?_⟩
        intro w hw
        rcases List.mem_cons.mp hw with hweq | hwmem
        · rw [hweq]
          exact hstep v hr
        · exact ih2 w hwmem

theorem process_sub_dims (urlSet : Bool) (oracle : List String → Embeddings.HttpResp)
    (sub : List String) (out : List (List ℚ))
    (h : Embeddings.process_sub urlSet oracle sub = .ok out) :
    ∀ v ∈ out, v.length = EMBEDDING_DIM := by
  unfold Embeddings.process_sub at h
  cases hm : (Embeddings.sync_post_list urlSet oracle sub).1 with
  | ok vecs =>
    rw [hm] at h
    dsimp only at h
    split_ifs at h with h1 h2
    all_goals try exact Except.noConfusion h
    have hvo : vecs = out := Except.ok.inj h
    rw [← hvo]
    intro v hv
    exact of_decide_eq_true (List.all_eq_true.mp h2 v hv)
  | error e =>
    rw [hm] at h
    try dsimp only at h
    cases e with
    | http413 =>
      dsimp only at h
      split_ifs at h with hbig
      · exact (retry_each_dims urlSet oracle sub out h).2
      · cases sub with
        | nil => exact absurd h (by simp)
        | cons t rest =>
          cases rest with
          | cons a b => exact absurd h (by simp)
          | nil =>
            dsimp only at h
            split_ifs at h with hlen
            all_goals try exact Except.noConfusion h
            cases he : Embeddings.embed_one urlSet oracle
                (String.mk (t.data.take (t.length / 2))) with
            | error e2 => rw [he] at h; exact absurd h (by simp [Except.map])
            | ok v =>
              rw [he] at h
              have hvo : [v] = out := by simpa [Except.map] using h
              rw [← hvo]
              intro w hw
              rcases List.mem_singleton.mp hw with rfl
              exact embed_one_dim urlSet oracle _ w he
    | httpOther => exact absurd h (by simp)
    | runtimeErr => exact absurd h (by simp)
    | valueError m => exact absurd h (by simp)

theorem clip_texts_length (mc : Option Nat) (texts : List String) :
    (Embeddings.clip_texts mc texts).length = texts.length := by
  unfold Embeddings.clip_texts
  cases mc with
  | none => rfl
  | some m =>
    dsimp only
    split_ifs
    · exact List.length_map _ _
    · rfl

theorem cap_texts_length (tok : String → Nat) (mt : Option Nat)
    (texts : List String) :
    (Embeddings.cap_texts tok mt texts).length = texts.length := by
  unfold Embeddings.cap_texts
  cases mt with
  | none => rfl
  | some m =>
    dsimp only
    split_ifs
    · exact List.length_map _ _
    · rfl

theorem foldl_process_error (urlSet : Bool)
    (oracle : List String → Embeddings.HttpResp) (subs : List (List String))
    (e : Embeddings.EmbedErr) :
    subs.foldl (fun (acc : Except Embeddings.EmbedErr (List (List ℚ))) sub =>
      match acc with
      | .error e => .error e
      | .ok out =>
        match Embeddings.process_sub urlSet oracle sub with
        | .ok vecs => .ok (out ++ vecs)
        | .error e => .error e) (.error e) = .error e := by
  induction subs with
  | nil => rfl
  | cons sub subs ih => rw [List.foldl_cons]; exact ih

theorem foldl_process_dims (urlSet : Bool)
    (oracle : List String → Embeddings.HttpResp) (subs : List (List String)) :
    ∀ (acc out : List (List ℚ)),
      (∀ v ∈ acc, v.length = EMBEDDING_DIM) →
      subs.foldl (fun (a : Except Embeddings.EmbedErr (List (List ℚ))) sub =>
        match a with
        | .error e => .error e
        | .ok out =>
          match Embeddings.process_sub urlSet oracle sub with
          | .ok vecs => .ok (out ++ vecs)
          | .error e => .error e) (.ok acc) = .ok out →
      ∀ v ∈ out, v.length = EMBEDDING_DIM := by
  induction subs with
  | nil =>
    intro acc out hacc h
    have : acc = out := Except.ok.inj h
    rw [← this]
    exact hacc
  | cons sub subs ih =>
    intro acc out hacc h
    rw [List.foldl_cons] at h
    dsimp only at h
    cases hps : Embeddings.process_sub urlSet oracle sub with
    | error e =>
      rw [hps] at h
      dsimp only at h
      rw [foldl_process_error] at h
      exact Except.noConfusion h
    | ok vecs =>
      rw [hps] at h
      dsimp only at h
      refine ih _ out ?_ h
      intro v hv
      rcases List.mem_append.mp hv with h1 | h2
      · exact hacc v h1
      · exact process_sub_dims urlSet oracle sub vecs hps v h2

set_option maxRecDepth 40000 in
/-- C4: `encode_batch` either fails or returns exactly one vector per input
text, each of dimension `EMBEDDING_DIM`; and in the concrete 413-retry
scenario — a 3-text sub-batch rejected with 413, retried element-by-element
with one over-256-character element halved once — the call succeeds with
exactly 3 vectors of dimension `EMBEDDING_DIM`. -/
theorem encode_batch_counts :
    (∀ (urlSet : Bool) (oracle : List String → Embeddings.HttpResp)
       (tok : String → Nat) (texts : List String) (batchSize : Nat)
       (maxChars maxTok : Option Nat) (out : List (List ℚ)),
      Embeddings.encode_batch urlSet oracle tok texts batchSize maxChars maxTok =
        .ok out →
      out.length = texts.length ∧ ∀ v ∈ out, v.length = EMBEDDING_DIM) ∧
    Embeddings.encode_batch true oracle413 (fun _ => 1)
      ["a", String.mk (List.replicate 300 'b'), "c"] 3 none none =
      .ok (List.replicate 3 (List.replicate EMBEDDING_DIM 1)) := by
  constructor
  · intro urlSet oracle tok texts batchSize mc mt out h
    unfold Embeddings.encode_batch at h
    split_ifs at h with hempty
    · have hout : ([] : List (List ℚ)) = out := Except.ok.inj h
      rw [← hout, hempty]
      exact ⟨rfl, by simp⟩
    · dsimp only at h
      cases hp : (Embeddings.chunksOf batchSize
          (Embeddings.cap_texts tok mt (Embeddings.clip_texts mc texts))).foldl
          (fun (a : Except Embeddings.EmbedErr (List (List ℚ))) sub =>
            match a with
            | .error e => .error e
            | .ok out =>
              match Embeddings.process_sub urlSet oracle sub with
              | .ok vecs => .ok (out ++ vecs)
              | .error e => .error e) (.ok []) with
      | error e =>
        rw [hp] at h
        exact Except.noConfusion h
      | ok out' =>
        rw [hp] at h
        dsimp only at h
        split_ifs at h with hn
        all_goals try exact Except.noConfusion h
        have hout : out' = out := Except.ok.inj h
        simp only [not_not] at hn
        constructor
        · rw [← hout, hn, cap_texts_length, clip_texts_length]
        · rw [← hout]
          exact foldl_process_dims urlSet oracle _ [] out' (by simp) hp
  · rfl

/-- Witness for C4: the general count/dimension property applied at the
413-retry scenario instance. -/
theorem encode_batch_counts_witness :
    (List.replicate 3 (List.replicate EMBEDDING_DIM (1 : ℚ))).length =
      (["a", String.mk (List.replicate 300 'b'), "c"] : List String).length ∧
    ∀ v ∈ List.replicate 3 (List.replicate EMBEDDING_DIM (1 : ℚ)),
      v.length = EMBEDDING_DIM :=
  encode_batch_counts.1 true oracle413 (fun _ => 1)
    ["a", String.mk (List.replicate 300 'b'), "c"] 3 none none
    (List.replicate 3 (List.replicate EMBEDDING_DIM 1))
    encode_batch_counts.2

set_option maxRecDepth 40000 in
/-- C1 (the code evaluated at the failing input): for an email classified
SENSITIVE (tier 1) with the non-blank subject "Hello", `_prepare_one` sets
`subject_text = "Hello"` — line 532 of `src/transform/pipeline.py` has no
tier check, contradicting the `_PreparePayload.subject_text` comment "empty
if SENSITIVE or no subject" — so the flattened embed request contains a
subject entry, `_validate_transform_result` passes (it only *requires*
content for non-SENSITIVE subjects, it does not reject its presence), and
the stored row has `subject_embedding` present. -/
theorem sensitive_subject_embedding_stored :
    Pipeline.prepare_one envC1 emailC1 = .ok payloadC1 ∧
    payloadC1.privacyTier = PrivacyTier.SENSITIVE ∧
    payloadC1.subjectText = "Hello" ∧
    (∃ it ∈ Pipeline.buildItems [payloadC1], it.role = Pipeline.Role.subject) ∧
    Pipeline.transform_one payloadC1 [vSubj, vBody] = some stC1 ∧
    stC1.subjectEmbedding = some vSubj := by
  refine ⟨rfl, rfl, rfl, ?_, rfl, rfl⟩
  refine ⟨⟨0, 1, Pipeline.Role.subject, "Hello", none⟩, ?_, rfl⟩
  rw [show Pipeline.buildItems [payloadC1] =
      [⟨0, 1, Pipeline.Role.subject, "Hello", none⟩,
       ⟨0, 1, Pipeline.Role.body, "Meet at noon.", none⟩] from rfl]
  exact List.mem_cons_self _ _

end Theorems
